import Mathlib

/-!
Verification of the browserballad race-orchestration core.

Shallow embedding of `src/competition/race_manager.py` (race state machine,
registries, finalization guard), the listener fan-out portion of
`src/competition/server.py` (`RunState`), and the judge-response
normalization of `src/competition/llm.py` (`judge_race`).

Modelling conventions:
* Python `float` timestamps are embedded as `ℚ` (exact arithmetic; the code
  performs only subtraction on them).  Wall-clock samples (`time.time()`)
  are passed explicitly as parameters; real clock values are positive, which
  the reachability relation records via `opWF`.
* Python truthiness on optional floats (`if x:` / `x or y`) treats both
  `None` and `0.0` as falsy; `truthyF` / `pyOrF` embed this exactly.
* The single-threaded asyncio scheduler executes each synchronous segment
  atomically.  `_run_judgement` mutates the race only after its single
  `await`, in one synchronous tail, so the whole judgement completion is a
  single atomic step (`Op.judgeFinish`), enabled exactly while `finalizing`
  is set (the flag is set just before `asyncio.create_task` and cleared in
  the task's `finally`).
* The global dicts `RACE_STATES` / `RUN_TO_RACE` are embedded as functions
  `String → Option _` with pointwise update, faithful to dict get/set/pop.
* `uuid.uuid4().hex` identifier generation is modelled by a freshness guard
  on the race-creation step.
-/

/-- Python truthiness of an optional float: `None` and `0.0` are falsy. -/
def truthyF : Option ℚ → Bool
  | none => false
  | some q => q != 0

/-- Python `x or y` where `x : Optional[float]` and `y : float`:
returns `x` when truthy, else `y`. -/
def pyOrF (x : Option ℚ) (y : ℚ) : ℚ :=
  match x with
  | some q => if q ≠ 0 then q else y
  | none => y

/-- Python `x or ""` where `x : Optional[str]` (used for `submission or ""`):
`None` and `""` are falsy, so the result is the string content or `""`. -/
def pyOrS : Option String → String
  | some s => if s ≠ "" then s else ""
  | none => ""

/-- Subtraction of timestamps (`completed_at - started_at`).  Extensionally
equal to `Sub.sub` on `ℚ` (see `ratSub_eq_sub`), but defined through
`mkRat` so that concrete executions reduce inside the kernel (`Rat.sub`
itself is `@[irreducible]`). -/
def ratSub (a b : ℚ) : ℚ :=
  mkRat (a.num * b.den - b.num * a.den) (a.den * b.den)

theorem ratSub_eq_sub (a b : ℚ) : ratSub a b = a - b := by
  unfold ratSub
  rw [Rat.mkRat_eq_div]
  have ha : (a.den : ℚ) ≠ 0 := by exact_mod_cast a.den_nz
  have hb : (b.den : ℚ) ≠ 0 := by exact_mod_cast b.den_nz
  field_simp
  have h1 : (a.num : ℚ) = a * a.den := (div_eq_iff ha).mp (Rat.num_div_den a)
  have h2 : (b.num : ℚ) = b * b.den := (div_eq_iff hb).mp (Rat.num_div_den b)
  rw [h1, h2]; ring

/-! ## llm.py: judge-response normalization (`judge_race`, lines 244-265)

The network call and JSON parsing are external; we embed the normalization
applied to the parsed judge response.  Parsed JSON scalars are embedded as
`PyVal`. -/

/-- A parsed JSON scalar value as Python sees it (the judge response values
relevant to normalization: strings, numbers, booleans, `None`). -/
inductive PyVal where
  | str (s : String)
  | num (q : ℚ)
  | boolean (b : Bool)
  | nil
  deriving DecidableEq, Repr

/-- Python `str(v)` on a scalar. -/
def pyStr : PyVal → String
  | .str s => s
  | .num q => toString q
  | .boolean b => if b then "True" else "False"
  | .nil => "None"

/-- ASCII lower-casing of a character (model of Python `str.lower` on the
ASCII winner keywords). -/
def lowerChar (c : Char) : Char :=
  if 'A' ≤ c ∧ c ≤ 'Z' then Char.ofNat (c.toNat + 32) else c

/-- ASCII lower-casing of a string. -/
def strLower (s : String) : String :=
  ⟨s.data.map lowerChar⟩

/-- Decimal digits to a natural number. -/
def natOfDigits (cs : List Char) : ℕ :=
  cs.foldl (fun n c => 10 * n + (c.toNat - 48)) 0

/-- Parse an unsigned decimal float literal (`"12"`, `"12.5"`, `"1."`,
`".5"`); anything else fails. -/
def parseUnsignedFloat (cs : List Char) : Option ℚ :=
  let intPart := cs.takeWhile (fun c => c != '.')
  let rest := cs.dropWhile (fun c => c != '.')
  match rest with
  | [] => if cs ≠ [] ∧ cs.all Char.isDigit then some ((natOfDigits cs : ℚ)) else none
  | _ :: frac =>
      if frac.contains '.' then none
      else if (intPart ≠ [] ∨ frac ≠ []) ∧ intPart.all Char.isDigit ∧ frac.all Char.isDigit then
        some ((natOfDigits intPart : ℚ) + (natOfDigits frac : ℚ) / (10 : ℚ) ^ frac.length)
      else none

/-- ASCII whitespace (the characters Python `float` strips). -/
def isSpaceChar (c : Char) : Bool :=
  c == ' ' || c == '\t' || c == '\n' || c == '\r'

/-- Model of Python `float(s)` on a string: strip whitespace, optional
sign, plain decimal literal (exponents / inf / nan are not produced by the
judge and are not modelled). -/
def parseFloatStr (s : String) : Option ℚ :=
  let t := ((s.data.dropWhile isSpaceChar).reverse.dropWhile isSpaceChar).reverse
  match t with
  | [] => none
  | '+' :: rest => parseUnsignedFloat rest
  | '-' :: rest => (parseUnsignedFloat rest).map Neg.neg
  | _ => parseUnsignedFloat t

/-- Model of Python `float(v)`: numbers and booleans convert, `None` raises
`TypeError` (`none` here), strings parse or raise `ValueError`. -/
def pyFloat : PyVal → Option ℚ
  | .num q => some q
  | .boolean b => some (if b then 1 else 0)
  | .nil => none
  | .str s => parseFloatStr s

/-- A normalized verdict as built by `judge_race` (and by the synthetic-tie
fallback in `race_manager._run_judgement`).  `reasoning` is passed through
unconverted, hence `PyVal`. -/
structure Verdict where
  winner : String
  reasoning : PyVal
  agent_score : ℚ
  human_score : ℚ
  deriving DecidableEq, Repr

/-- Lookup in a parsed JSON object (association list). -/
def jget : List (String × PyVal) → String → Option PyVal
  | [], _ => none
  | (k, v) :: rest, key => if key = k then some v else jget rest key

/-- The required keys of a judge response (`llm.py` line 246). -/
def judgeRequiredKeys : List String := ["agent_score", "human_score", "reasoning", "winner"]

/-- Embedding of `llm.judge_race` lines 244-265: the normalization of the
parsed judge response.  Missing keys and non-numeric scores raise
`RuntimeError` (`Except.error`); an unrecognized winner is coerced to
`"tie"`. -/
def judge_race (verdict : List (String × PyVal)) : Except String Verdict :=
  if (judgeRequiredKeys.filter (fun k => (jget verdict k).isNone)) ≠ [] then
    .error "Judge response missing keys"
  else
    match jget verdict "winner", jget verdict "reasoning",
          jget verdict "agent_score", jget verdict "human_score" with
    | some w, some r, some a, some h =>
        let winner0 := strLower (pyStr w)
        let winner :=
          if winner0 = "agent" ∨ winner0 = "human" ∨ winner0 = "tie" then winner0 else "tie"
        match pyFloat a, pyFloat h with
        | some qa, some qh =>
            .ok { winner := winner, reasoning := r, agent_score := qa, human_score := qh }
        | _, _ => .error "Judge response score is not numeric"
    | _, _, _, _ => .error "Judge response missing keys"

/-- Claim C9: for every judge response containing the four required keys,
an unrecognized (lowercased) winner value is coerced to `"tie"` provided the
scores convert, whereas a score that does not convert to a float makes
`judge_race` fail with a hard error instead of returning a verdict. -/
theorem judge_race_winner_coerced_scores_hard_fail
    (d : List (String × PyVal)) (w r a h : PyVal)
    (hw : jget d "winner" = some w) (hr : jget d "reasoning" = some r)
    (ha : jget d "agent_score" = some a) (hh : jget d "human_score" = some h) :
    ((pyFloat a = none ∨ pyFloat h = none) → ∃ msg, judge_race d = .error msg) ∧
    (∀ qa qh, pyFloat a = some qa → pyFloat h = some qh →
      ¬(strLower (pyStr w) = "agent" ∨ strLower (pyStr w) = "human" ∨ strLower (pyStr w) = "tie") →
      judge_race d = .ok { winner := "tie", reasoning := r, agent_score := qa, human_score := qh }) := by
  have hfilter :
      (judgeRequiredKeys.filter (fun k => (jget d k).isNone)) = [] := by
    simp [judgeRequiredKeys, hw, hr, ha, hh]
  constructor
  · intro hbad
    rcases hbad with hbad | hbad
    · exact ⟨"Judge response score is not numeric", by
        simp [judge_race, hfilter, hw, hr, ha, hh, hbad]⟩
    · refine ⟨"Judge response score is not numeric", ?_⟩
      simp only [judge_race, hfilter, hw, hr, ha, hh]
      simp only [ne_eq, not_true_eq_false, if_false, hbad]
      cases hfa : pyFloat a <;> simp
  · intro qa qh hqa hqh hwin
    simp [judge_race, hfilter, hw, hr, ha, hh, hqa, hqh, if_neg hwin]

/-- Witness for C9 at a concrete judge response: winner `"Champion"` is not
recognized and is coerced to `"tie"`; a response whose `human_score` is the
non-numeric string `"n/a"` is a hard error. -/
theorem judge_race_winner_coerced_scores_hard_fail_witness :
    judge_race [("winner", .str "Champion"), ("reasoning", .str "close call"),
                ("agent_score", .num 7), ("human_score", .num 4)] =
      .ok { winner := "tie", reasoning := .str "close call", agent_score := 7, human_score := 4 } ∧
    ∃ msg, judge_race [("winner", .str "agent"), ("reasoning", .str "x"),
                ("agent_score", .num 7), ("human_score", .str "n/a")] = .error msg := by
  constructor
  · exact (judge_race_winner_coerced_scores_hard_fail
      [("winner", .str "Champion"), ("reasoning", .str "close call"),
       ("agent_score", .num 7), ("human_score", .num 4)]
      (.str "Champion") (.str "close call") (.num 7) (.num 4)
      (by decide) (by decide) (by decide) (by decide)).2 7 4 (by decide) (by decide) (by decide)
  · exact (judge_race_winner_coerced_scores_hard_fail
      [("winner", .str "agent"), ("reasoning", .str "x"),
       ("agent_score", .num 7), ("human_score", .str "n/a")]
      (.str "agent") (.str "x") (.num 7) (.str "n/a")
      (by decide) (by decide) (by decide) (by decide)).1 (Or.inr (by decide))

/-! ## race_manager.py: data model -/

/-- An executor event as routed by `handle_run_event` (`race_manager.py`
lines 145-172).  The payloads mirror `event.get(...)` results; event dicts
of any other `type` (e.g. `log`) fall through every branch and are
represented by `other`. -/
inductive Event where
  | status (s : Option String)
  | liveUrl (url : Option String)
  | result (r : Option String)
  | error
  | complete
  | other
  deriving DecidableEq, Repr

/-- `RaceTask` (`race_manager.py` lines 16-25). -/
structure RaceTask where
  title : String
  summary : String
  human_instructions : String
  agent_instructions : String
  task_type : String
  success_criteria : String
  expected_output_description : String
  evaluation_guidelines : List String
  deriving DecidableEq, Repr

/-- `ParticipantState` (`race_manager.py` lines 41-48). -/
structure ParticipantState where
  status : String := "pending"
  started_at : Option ℚ := none
  completed_at : Option ℚ := none
  duration_seconds : Option ℚ := none
  result : Option String := none
  live_url : Option String := none
  deriving DecidableEq, Repr

/-- `RaceState` (`race_manager.py` lines 51-62). -/
structure RaceState where
  race_id : String
  task : RaceTask
  created_at : ℚ
  status : String := "ready"
  agent_run_id : Option String := none
  agent : ParticipantState := {}
  human : ParticipantState := {}
  human_submission : Option String := none
  verdict : Option Verdict := none
  finalizing : Bool := false
  deriving DecidableEq, Repr

/-! ## race_manager.py: per-race operations -/

/-- The successful path of `register_agent_run` (`race_manager.py` lines
130-136): bind the run, move the race to `running`, the agent participant
to `starting`, and set its start timestamp if unset. -/
def register_agent_run_race (race : RaceState) (run_id : String) (now : ℚ) : RaceState :=
  { race with
    agent_run_id := some run_id
    status := "running"
    agent := { race.agent with
      status := "starting"
      started_at := some (pyOrF race.agent.started_at now) } }

/-- Agent readiness as computed by `_maybe_finalize` (line 203). -/
def agent_ready (race : RaceState) : Bool :=
  race.agent.result.isSome || race.agent.status == "error"

/-- Human readiness as computed by `_maybe_finalize` (lines 204-207). -/
def human_ready (race : RaceState) : Bool :=
  if race.task.task_type == "text_entry" then race.human_submission.isSome
  else race.human.status == "completed"

/-- The synchronous part of `_maybe_finalize` (lines 199-213): guard on
verdict / `finalizing`, compute readiness, and if both sides are ready set
`finalizing` and move to `judging`.  Spawning the judgement task is
represented by the `finalizing` flag, which enables `Op.judgeFinish`. -/
def maybe_finalize (race : RaceState) : RaceState :=
  if race.verdict.isSome || race.finalizing then race
  else if agent_ready race && human_ready race then
    { race with finalizing := true, status := "judging" }
  else race

/-- The event-dispatch block of `handle_run_event` (lines 145-172), acting
on the bound race; `now` is the step's `time.time()` sample.  The
`RUN_TO_RACE.pop` of the `complete` branch lives at the registry level
(`handle_run_event`, below). -/
def apply_run_event (race : RaceState) (e : Event) (now : ℚ) : RaceState :=
  match e with
  | .status s =>
      match s with
      | some st =>
          if st = "" then race
          else
            { race with agent := { race.agent with
                status := st
                started_at :=
                  if st = "running" ∧ race.agent.started_at = none then some now
                  else race.agent.started_at } }
      | none => race
  | .liveUrl u =>
      match u with
      | some url =>
          if url = "" then race
          else { race with agent := { race.agent with live_url := some url } }
      | none => race
  | .result r =>
      match r with
      | some res =>
          let completed := pyOrF race.agent.completed_at now
          { race with agent := { race.agent with
              result := some res
              completed_at := some completed
              duration_seconds :=
                if truthyF race.agent.started_at then
                  some (ratSub completed (race.agent.started_at.getD 0))
                else race.agent.duration_seconds } }
      | none => race
  | .error => { race with agent := { race.agent with status := "error" } }
  | .complete =>
      let completed := pyOrF race.agent.completed_at now
      { race with
        status :=
          if race.status ≠ "judging" ∧ race.status ≠ "completed" then
            (if race.human.status ≠ "completed" then "awaiting_human" else race.status)
          else race.status
        agent := { race.agent with
          status := "completed"
          completed_at := some completed
          duration_seconds :=
            if truthyF race.agent.started_at ∧ race.agent.duration_seconds = none then
              some (ratSub completed (race.agent.started_at.getD 0))
            else race.agent.duration_seconds } }
  | .other => race

/-- `record_human_submission` (lines 177-196) acting on the race; `t1` and
`t2` are the two `time.time()` samples (lines 182 and 185). -/
def record_human_submission_race (race : RaceState) (submission : Option String)
    (t1 t2 : ℚ) : RaceState :=
  let race1 :=
    if race.human.status = "pending" then
      { race with human := { race.human with
          status := "running"
          started_at := some (pyOrF race.human.started_at t1) } }
    else race
  let completed := pyOrF race1.human.completed_at t2
  let race2 :=
    { race1 with human := { race1.human with
        status := "completed"
        completed_at := some completed
        duration_seconds :=
          if truthyF race1.human.started_at ∧ race1.human.duration_seconds = none then
            some (ratSub completed (race1.human.started_at.getD 0))
          else race1.human.duration_seconds } }
  let race3 :=
    if race.task.task_type = "text_entry" then
      { race2 with
        human_submission := some (pyOrS submission)
        human := { race2.human with result := some (pyOrS submission) } }
    else { race2 with human_submission := some (pyOrS submission) }
  maybe_finalize race3

/-- `mark_human_started` (lines 256-265) acting on the race. -/
def mark_human_started_race (race : RaceState) (now : ℚ) : RaceState :=
  if race.human.status = "completed" then race
  else if race.human.status = "pending" then
    let race :=
      { race with human := { race.human with
          status := "running"
          started_at := some (pyOrF race.human.started_at now) } }
    if race.status = "ready" then { race with status := "running" } else race
  else race

/-- The mutation tail of `_run_judgement` (lines 215-235): on judge success
store the verdict and complete; on judge failure store the synthetic tie
verdict embedding the failure cause; in both cases the `finally` clears
`finalizing`. -/
def run_judgement_result (race : RaceState) (res : Except String Verdict) : RaceState :=
  match res with
  | .ok v => { race with verdict := some v, status := "completed", finalizing := false }
  | .error msg =>
      { race with
        verdict := some
          { winner := "tie"
            reasoning := .str ("Judging failed: " ++ msg)
            agent_score := 0
            human_score := 0 }
        status := "completed"
        finalizing := false }

/-! ## race_manager.py: global registries and atomic steps -/

/-- Pointwise update of a string-keyed dict (`d[k] = v`). -/
def dictSet (f : String → Option α) (k : String) (v : α) : String → Option α :=
  fun k' => if k' = k then some v else f k'

/-- Pointwise removal (`d.pop(k, None)`). -/
def dictRemove (f : String → Option α) (k : String) : String → Option α :=
  fun k' => if k' = k then none else f k'

/-- Removal of every entry whose value equals `v` (the loop of
`clear_race`, lines 247-249). -/
def dictRemoveValue (f : String → Option String) (v : String) : String → Option String :=
  fun k' => match f k' with
    | some w => if w = v then none else some w
    | none => none

/-- The module-level registries `RACE_STATES` and `RUN_TO_RACE`
(`race_manager.py` lines 84-85). -/
structure GlobalState where
  RACE_STATES : String → Option RaceState
  RUN_TO_RACE : String → Option String

/-- `create_race` (lines 109-116) after a successful task generation:
insert a fresh race in `ready` state with both participants `pending`. -/
def create_race (g : GlobalState) (race_id : String) (task : RaceTask) (now : ℚ) :
    GlobalState :=
  let race : RaceState := { race_id := race_id, task := task, created_at := now }
  { g with RACE_STATES := dictSet g.RACE_STATES race_id race }

/-- `register_agent_run` (lines 126-136): `KeyError` for an unknown race,
`RuntimeError` when a run is already bound, otherwise bind and update. -/
def register_agent_run (g : GlobalState) (race_id run_id : String) (now : ℚ) :
    Except String GlobalState :=
  match g.RACE_STATES race_id with
  | none => .error "Unknown race id"
  | some race =>
      if race.agent_run_id ≠ none then .error "Agent run already registered"
      else .ok
        { RACE_STATES := dictSet g.RACE_STATES race_id
            (register_agent_run_race race run_id now)
          RUN_TO_RACE := dictSet g.RUN_TO_RACE run_id race_id }

/-- `handle_run_event` (lines 139-174): route by `RUN_TO_RACE` (silent
no-op for unknown or falsy race ids), apply the event, pop the binding on
`complete`, then `_maybe_finalize`. -/
def handle_run_event (g : GlobalState) (run_id : String) (e : Event) (now : ℚ) :
    GlobalState :=
  match g.RUN_TO_RACE run_id with
  | none => g
  | some race_id =>
      if race_id = "" then g
      else
        match g.RACE_STATES race_id with
        | none => g
        | some race =>
            { RACE_STATES := dictSet g.RACE_STATES race_id
                (maybe_finalize (apply_run_event race e now))
              RUN_TO_RACE :=
                if e = Event.complete then dictRemove g.RUN_TO_RACE run_id
                else g.RUN_TO_RACE }

/-- `record_human_submission` (lines 177-196) at the registry level. -/
def record_human_submission (g : GlobalState) (race_id : String)
    (submission : Option String) (t1 t2 : ℚ) : Except String GlobalState :=
  match g.RACE_STATES race_id with
  | none => .error "Unknown race id"
  | some race =>
      let races' := dictSet g.RACE_STATES race_id
        (record_human_submission_race race submission t1 t2)
      .ok { g with RACE_STATES := races' }

/-- `mark_human_started` (lines 256-265) at the registry level. -/
def mark_human_started (g : GlobalState) (race_id : String) (now : ℚ) :
    Except String GlobalState :=
  match g.RACE_STATES race_id with
  | none => .error "Unknown race id"
  | some race =>
      let races' := dictSet g.RACE_STATES race_id (mark_human_started_race race now)
      .ok { g with RACE_STATES := races' }

/-- `clear_race` (lines 245-249). -/
def clear_race (g : GlobalState) (race_id : String) : GlobalState :=
  { RACE_STATES := dictRemove g.RACE_STATES race_id
    RUN_TO_RACE := dictRemoveValue g.RUN_TO_RACE race_id }

/-- Completion of a spawned `_run_judgement` task for a race.  The task
exists exactly while `finalizing` is set; completion on a cleared race
mutates an unregistered object and is invisible through the registry. -/
def judge_task_finish (g : GlobalState) (race_id : String)
    (res : Except String Verdict) : GlobalState :=
  match g.RACE_STATES race_id with
  | none => g
  | some race =>
      if race.finalizing then
        { g with RACE_STATES :=
            dictSet g.RACE_STATES race_id (run_judgement_result race res) }
      else g

deriving instance DecidableEq for Except

/-- One atomic scheduler step of the orchestration core: each constructor
is a synchronous segment of the Python code, with its `time.time()`
samples as parameters. -/
inductive Op where
  | createRace (race_id : String) (task : RaceTask) (now : ℚ)
  | registerRun (race_id run_id : String) (now : ℚ)
  | runEvent (run_id : String) (e : Event) (now : ℚ)
  | humanSubmit (race_id : String) (submission : Option String) (t1 t2 : ℚ)
  | humanStart (race_id : String) (now : ℚ)
  | judgeFinish (race_id : String) (res : Except String Verdict)
  | clearRace (race_id : String)
  deriving DecidableEq

/-- The step function.  Raising operations leave the state unchanged
(nothing is mutated before the raise in the source).  `uuid4` freshness of
race ids is modelled by the guard on `createRace`. -/
def stepOp (g : GlobalState) : Op → GlobalState
  | .createRace rid task now =>
      if (g.RACE_STATES rid).isSome then g else create_race g rid task now
  | .registerRun rid run_id now =>
      match register_agent_run g rid run_id now with
      | .ok g' => g'
      | .error _ => g
  | .runEvent run_id e now => handle_run_event g run_id e now
  | .humanSubmit rid sub t1 t2 =>
      match record_human_submission g rid sub t1 t2 with
      | .ok g' => g'
      | .error _ => g
  | .humanStart rid now =>
      match mark_human_started g rid now with
      | .ok g' => g'
      | .error _ => g
  | .judgeFinish rid res => judge_task_finish g rid res
  | .clearRace rid => clear_race g rid

/-- Wall-clock samples are positive (`time.time()` on any real system). -/
def opWF : Op → Prop
  | .createRace _ _ now => 0 < now
  | .registerRun _ _ now => 0 < now
  | .runEvent _ _ now => 0 < now
  | .humanSubmit _ _ t1 t2 => 0 < t1 ∧ 0 < t2
  | .humanStart _ now => 0 < now
  | .judgeFinish _ _ => True
  | .clearRace _ => True

instance : DecidablePred opWF := by
  intro op
  cases op <;> simp only [opWF] <;> infer_instance

/-- The empty registries at module import. -/
def initState : GlobalState := { RACE_STATES := fun _ => none, RUN_TO_RACE := fun _ => none }

/-- Execute a list of atomic steps from the initial state. -/
def execList (ops : List Op) : GlobalState :=
  ops.foldl stepOp initState

/-- A global state is reachable when some sequence of well-formed atomic
steps produces it. -/
def ReachableG (g : GlobalState) : Prop :=
  ∃ ops : List Op, (∀ op ∈ ops, opWF op) ∧ execList ops = g

/-! ## server.py: RunState event fan-out (`_dispatch_loop` / `subscribe`)

Listener queues are unbounded asyncio queues; we model each queue by the
list of events ever enqueued to it (consumption order equals enqueue
order).  The race_manager forwarding of `_dispatch_loop` is modelled at the
registry level; here we verify the replay-buffer / fan-out behaviour. -/

/-- The listener-visible state of a `RunState` (`server.py` lines 32-56):
the replay buffer, the enqueue history of each registered listener (in
subscription order), and whether the dispatch loop has finished. -/
structure RunSrvState where
  buffer : List Event
  listeners : List (List Event)
  dispatch_done : Bool
  deriving DecidableEq, Repr

/-- A fresh `RunState`: empty buffer, no listeners, dispatch loop live. -/
def runSrvInit : RunSrvState :=
  { buffer := [], listeners := [], dispatch_done := false }

/-- One iteration of `_dispatch_loop` (lines 44-56) consuming one queued
event: append to the replay buffer, fan out to every listener, and stop the
loop after a `complete` event.  After the loop has stopped no further
events are dispatched. -/
def dispatch_event (s : RunSrvState) (e : Event) : RunSrvState :=
  if s.dispatch_done then s
  else
    { buffer := s.buffer ++ [e]
      listeners := s.listeners.map (fun q => q ++ [e])
      dispatch_done := e = Event.complete }

/-- `subscribe` (lines 58-64): a fresh listener first receives the whole
replay buffer; it is registered for live events only while the dispatch
loop is alive.  Returns the new state and the listener's enqueue history so
far. -/
def subscribe (s : RunSrvState) : RunSrvState × List Event :=
  let listener := s.buffer
  if s.dispatch_done then (s, listener)
  else ({ s with listeners := s.listeners ++ [listener] }, listener)

/-- Dispatch a sequence of queued events in order. -/
def dispatch_all (s : RunSrvState) (es : List Event) : RunSrvState :=
  es.foldl dispatch_event s

/-- The events the dispatch loop actually delivers from a queue history
`es`, starting from loop-state `stopped`: everything up to and including
the first `complete`. -/
def deliveredEvents : Bool → List Event → List Event
  | _, [] => []
  | true, _ :: _ => []
  | false, e :: es => e :: deliveredEvents (e = Event.complete) es

theorem dispatch_all_nil (s : RunSrvState) : dispatch_all s [] = s := rfl

theorem dispatch_all_cons (s : RunSrvState) (e : Event) (es : List Event) :
    dispatch_all s (e :: es) = dispatch_all (dispatch_event s e) es := rfl

theorem dispatch_event_done (s : RunSrvState) (e : Event) (h : s.dispatch_done = true) :
    dispatch_event s e = s := by
  simp [dispatch_event, h]

theorem dispatch_all_done (s : RunSrvState) (es : List Event)
    (h : s.dispatch_done = true) : dispatch_all s es = s := by
  induction es with
  | nil => rfl
  | cons e es ih => rw [dispatch_all_cons, dispatch_event_done s e h]; exact ih

theorem deliveredEvents_done (es : List Event) : deliveredEvents true es = [] := by
  cases es <;> rfl

/-- The replay buffer after dispatching `es` is the old buffer extended by
the delivered prefix of `es`. -/
theorem dispatch_all_buffer (es : List Event) (s : RunSrvState) :
    (dispatch_all s es).buffer = s.buffer ++ deliveredEvents s.dispatch_done es := by
  induction es generalizing s with
  | nil => simp [dispatch_all_nil, deliveredEvents]
  | cons e es ih =>
      rw [dispatch_all_cons]
      by_cases hd : s.dispatch_done = true
      · rw [dispatch_event_done s e hd, dispatch_all_done s es hd, hd, deliveredEvents_done]
        simp
      · have hd' : s.dispatch_done = false := by simpa using hd
        rw [hd']
        have : dispatch_event s e =
            { buffer := s.buffer ++ [e]
              listeners := s.listeners.map (fun q => q ++ [e])
              dispatch_done := e = Event.complete } := by
          simp [dispatch_event, hd']
        rw [this, ih]
        simp [deliveredEvents]

/-- Every listener queue is extended by exactly the delivered events, in
order. -/
theorem dispatch_all_listeners (es : List Event) (s : RunSrvState) :
    (dispatch_all s es).listeners =
      s.listeners.map (fun q => q ++ deliveredEvents s.dispatch_done es) := by
  induction es generalizing s with
  | nil => simp [dispatch_all_nil, deliveredEvents]
  | cons e es ih =>
      rw [dispatch_all_cons]
      by_cases hd : s.dispatch_done = true
      · rw [dispatch_event_done s e hd, dispatch_all_done s es hd, hd, deliveredEvents_done]
        simp
      · have hd' : s.dispatch_done = false := by simpa using hd
        rw [hd']
        have : dispatch_event s e =
            { buffer := s.buffer ++ [e]
              listeners := s.listeners.map (fun q => q ++ [e])
              dispatch_done := e = Event.complete } := by
          simp [dispatch_event, hd']
        rw [this, ih]
        simp [deliveredEvents, Function.comp_def]

/-- Claim C8: a subscriber joining after the run has emitted (and the loop
has delivered) the events of `es1` first has exactly that prefix in its
queue, in original order; after further events `es2` are dispatched its
queue is that prefix followed by exactly the delivered part of `es2`, so no
earlier event is missed or reordered and live events arrive strictly after
the replay. -/
theorem subscriber_gets_replay_then_live (es1 es2 : List Event) :
    (subscribe (dispatch_all runSrvInit es1)).2 = deliveredEvents false es1 ∧
    ((dispatch_all runSrvInit es1).dispatch_done = false →
      (dispatch_all (subscribe (dispatch_all runSrvInit es1)).1 es2).listeners.getLast? =
        some (deliveredEvents false es1 ++ deliveredEvents false es2)) := by
  have hbuf : (dispatch_all runSrvInit es1).buffer = deliveredEvents false es1 := by
    have := dispatch_all_buffer es1 runSrvInit
    simpa [runSrvInit] using this
  constructor
  · unfold subscribe
    by_cases hd : (dispatch_all runSrvInit es1).dispatch_done = true
    · simp [hd, hbuf]
    · have hd' : (dispatch_all runSrvInit es1).dispatch_done = false := by simpa using hd
      simp [hd', hbuf]
  · intro hlive
    have hsub : (subscribe (dispatch_all runSrvInit es1)).1 =
        { dispatch_all runSrvInit es1 with
            listeners := (dispatch_all runSrvInit es1).listeners ++ [(dispatch_all runSrvInit es1).buffer] } := by
      simp [subscribe, hlive]
    rw [hsub]
    rw [dispatch_all_listeners]
    simp only [List.map_append, List.getLast?_append]
    simp [hlive, hbuf]

/-! ## Concrete fixtures for witnesses and counterexamples -/

/-- A concrete `text_entry` task (shaped like the static task pool /
test fixture). -/
def exTask : RaceTask :=
  { title := "Collect a homepage headline"
    summary := "Capture the main headline."
    human_instructions := "Navigate and copy the headline."
    agent_instructions := "Visit the site and extract the heading."
    task_type := "text_entry"
    success_criteria := "Captures the headline text."
    expected_output_description := "A short string."
    evaluation_guidelines := ["Confirm the headline matches."] }

/-- A concrete `confirmation` task. -/
def exTaskConf : RaceTask :=
  { exTask with task_type := "confirmation" }

/-- A concrete successful judge verdict. -/
def exVerdict : Verdict :=
  { winner := "human", reasoning := .str "The human was faster.", agent_score := 6, human_score := 8 }

/-- Happy-path trace: create, register, agent runs to completion, human
submits, judgement succeeds. -/
def trHappy : List Op :=
  [Op.createRace "r" exTask 1, Op.registerRun "r" "run1" 2,
   Op.runEvent "run1" (Event.status (some "running")) 3,
   Op.runEvent "run1" (Event.liveUrl (some "https://live.example/x")) 3,
   Op.runEvent "run1" (Event.result (some "Paris")) 4,
   Op.runEvent "run1" Event.complete 5,
   Op.humanSubmit "r" (some "Paris") 6 7,
   Op.judgeFinish "r" (Except.ok exVerdict)]

/-- Prefix of `trHappy` that leaves the race in `judging` with the
`finalizing` guard set (the judgement task in flight). -/
def trFinalizing : List Op :=
  [Op.createRace "r" exTask 1, Op.registerRun "r" "run1" 2,
   Op.runEvent "run1" (Event.status (some "running")) 3,
   Op.runEvent "run1" (Event.result (some "Paris")) 4,
   Op.runEvent "run1" Event.complete 5,
   Op.humanSubmit "r" (some "Paris") 6 7]

/-- Trace binding an agent run without completing it. -/
def trBound : List Op :=
  [Op.createRace "r" exTask 1, Op.registerRun "r" "run1" 2]

/-- Trace in which the agent errors and then (as `agent_runner.run_agent`
always does in its `finally`) emits `complete`. -/
def trErrorComplete : List Op :=
  [Op.createRace "r" exTask 1, Op.registerRun "r" "run1" 2,
   Op.runEvent "run1" Event.error 3, Op.runEvent "run1" Event.complete 4]

/-- Prefix of `trErrorComplete` stopping right after the `error` event. -/
def trErrorOnly : List Op :=
  [Op.createRace "r" exTask 1, Op.registerRun "r" "run1" 2,
   Op.runEvent "run1" Event.error 3]

/-! ## Claims C5, C6, C7 -/

/-- Claim C5: if the judge invocation fails, the race still reaches status
`completed` with the synthetic verdict (winner `tie`, both scores `0.0`,
reasoning embedding the failure cause); and on both exit paths of the
judgement task (success or failure) the `finalizing` flag is cleared. -/
theorem judge_failure_synthetic_tie_guard_always_cleared
    (g : GlobalState) (rid msg : String) (v : Verdict)
    (hfin : (g.RACE_STATES rid).map RaceState.finalizing = some true) :
    ((stepOp g (Op.judgeFinish rid (Except.error msg))).RACE_STATES rid).map RaceState.status =
      some "completed" ∧
    ((stepOp g (Op.judgeFinish rid (Except.error msg))).RACE_STATES rid).map RaceState.verdict =
      some (some { winner := "tie", reasoning := PyVal.str ("Judging failed: " ++ msg),
                   agent_score := 0, human_score := 0 }) ∧
    ((stepOp g (Op.judgeFinish rid (Except.error msg))).RACE_STATES rid).map RaceState.finalizing =
      some false ∧
    ((stepOp g (Op.judgeFinish rid (Except.ok v))).RACE_STATES rid).map RaceState.finalizing =
      some false := by
  rw [Option.map_eq_some'] at hfin
  obtain ⟨race, hr, hfin'⟩ := hfin
  refine ⟨?_, ?_, ?_, ?_⟩ <;>
    simp [stepOp, judge_task_finish, hr, hfin', run_judgement_result, dictSet]

/-- Witness for C5: at the end of `trFinalizing` the judgement of race
`"r"` is in flight; a judge failure completes the race with the synthetic
tie verdict and clears the guard, and a judge success clears it too. -/
theorem judge_failure_synthetic_tie_guard_always_cleared_witness :
    ((stepOp (execList trFinalizing) (Op.judgeFinish "r" (Except.error "boom"))).RACE_STATES "r").map
        RaceState.status = some "completed" ∧
    ((stepOp (execList trFinalizing) (Op.judgeFinish "r" (Except.error "boom"))).RACE_STATES "r").map
        RaceState.verdict =
      some (some { winner := "tie", reasoning := PyVal.str "Judging failed: boom",
                   agent_score := 0, human_score := 0 }) ∧
    ((stepOp (execList trFinalizing) (Op.judgeFinish "r" (Except.error "boom"))).RACE_STATES "r").map
        RaceState.finalizing = some false ∧
    ((stepOp (execList trFinalizing) (Op.judgeFinish "r" (Except.ok exVerdict))).RACE_STATES "r").map
        RaceState.finalizing = some false :=
  judge_failure_synthetic_tie_guard_always_cleared (execList trFinalizing) "r" "boom" exVerdict
    (by decide)

/-- Claim C6: registering a second agent run on a race that already has one
bound fails with a conflict error and leaves the whole global state — the
race, the race registry and the run-to-race index — unmodified. -/
theorem register_second_run_conflict_state_unchanged
    (g : GlobalState) (rid run1 : String) (run0 : String) (now : ℚ)
    (hbound : (g.RACE_STATES rid).map RaceState.agent_run_id = some (some run0)) :
    (∃ msg, register_agent_run g rid run1 now = Except.error msg) ∧
    stepOp g (Op.registerRun rid run1 now) = g := by
  rw [Option.map_eq_some'] at hbound
  obtain ⟨race, hr, hb0⟩ := hbound
  have hb : race.agent_run_id ≠ none := by rw [hb0]; simp
  constructor
  · exact ⟨"Agent run already registered", by simp [register_agent_run, hr, hb]⟩
  · simp [stepOp, register_agent_run, hr, hb]

/-- Witness for C6: after `trBound`, race `"r"` has run `"run1"` bound; a
second registration (of `"run2"`) errors and changes nothing. -/
theorem register_second_run_conflict_state_unchanged_witness :
    (∃ msg, register_agent_run (execList trBound) "r" "run2" 9 = Except.error msg) ∧
    stepOp (execList trBound) (Op.registerRun "r" "run2" 9) = execList trBound :=
  register_second_run_conflict_state_unchanged (execList trBound) "r" "run2" "run1" 9 (by decide)

/-- Claim C7: an event for a run id absent from the run-to-race index is a
silent no-op: no error is raised and the entire global state (every
registered race, the race registry, and the run-to-race index) is
unchanged. -/
theorem unknown_run_event_silent_noop
    (g : GlobalState) (run_id : String) (e : Event) (now : ℚ)
    (hrun : g.RUN_TO_RACE run_id = none) :
    handle_run_event g run_id e now = g ∧
    stepOp g (Op.runEvent run_id e now) = g := by
  constructor
  · simp [handle_run_event, hrun]
  · simp [stepOp, handle_run_event, hrun]

/-- Witness for C7: in the state reached by `trBound`, an event for the
never-registered run id `"ghost"` changes nothing. -/
theorem unknown_run_event_silent_noop_witness :
    handle_run_event (execList trBound) "ghost" (Event.result (some "x")) 5 = execList trBound ∧
    stepOp (execList trBound) (Op.runEvent "ghost" (Event.result (some "x")) 5) = execList trBound :=
  unknown_run_event_silent_noop (execList trBound) "ghost" (Event.result (some "x")) 5 (by decide)

/-! ## Claim C3: the `complete` event versus an `error`ed agent -/

/-- Counterexample to C3 as stated: in the reachable state after
`trErrorOnly` the agent participant of race `"r"` is in status `"error"`;
applying the `complete` event (trace `trErrorComplete`) sets the agent
status to `"completed"` — it does not leave it as `"error"`. -/
theorem complete_event_overwrites_error_status :
    ((execList trErrorOnly).RACE_STATES "r").map (fun r => r.agent.status) = some "error" ∧
    ((execList trErrorComplete).RACE_STATES "r").map (fun r => r.agent.status) = some "completed" := by
  decide

/-- Witness for C8: a subscriber joining after three events were emitted
first holds exactly those three, and after a later `complete` is dispatched
its queue is the three followed by `complete`. -/
theorem subscriber_gets_replay_then_live_witness :
    (subscribe (dispatch_all runSrvInit
        [Event.status (some "running"), Event.liveUrl (some "u"), Event.result (some "Paris")])).2 =
      [Event.status (some "running"), Event.liveUrl (some "u"), Event.result (some "Paris")] ∧
    (dispatch_all (subscribe (dispatch_all runSrvInit
        [Event.status (some "running"), Event.liveUrl (some "u"), Event.result (some "Paris")])).1
        [Event.complete]).listeners.getLast? =
      some [Event.status (some "running"), Event.liveUrl (some "u"), Event.result (some "Paris"),
            Event.complete] := by
  have h := subscriber_gets_replay_then_live
    [Event.status (some "running"), Event.liveUrl (some "u"), Event.result (some "Paris")]
    [Event.complete]
  exact ⟨h.1.trans (by decide), (h.2 (by decide)).trans (by decide)⟩

/-! ## Reachability invariants of the race state machine -/

/-- Stored wall-clock timestamps are positive. -/
def tsOK (o : Option ℚ) : Prop := ∀ t, o = some t → 0 < t

/-- The duration/timestamp relation of a participant: the duration is set
iff both timestamps are set, and then equals their difference. -/
def durRel (p : ParticipantState) : Prop :=
  (∀ a b, p.started_at = some a → p.completed_at = some b →
    p.duration_seconds = some (ratSub b a)) ∧
  (p.started_at = none ∨ p.completed_at = none → p.duration_seconds = none)

/-- Per-race reachability invariant, core part: the fields that hold at
every point of a synchronous segment (in particular just before the
trailing `_maybe_finalize` call of an event or submission handler). -/
structure RaceInvCore (race : RaceState) : Prop where
  verdict_completed : race.verdict.isSome = true →
    race.status = "completed" ∧ race.finalizing = false
  judging_triggered : race.status = "judging" ∨ race.status = "completed" →
    race.finalizing = true ∨ race.verdict.isSome = true
  unregistered : race.agent_run_id = none →
    race.agent = ({} : ParticipantState) ∧
    (race.status = "ready" ∨ race.status = "running") ∧
    race.verdict = none ∧ race.finalizing = false
  registered_started : ∀ run_id, race.agent_run_id = some run_id →
    ∃ a, race.agent.started_at = some a
  ts_as : tsOK race.agent.started_at
  ts_ac : tsOK race.agent.completed_at
  ts_hs : tsOK race.human.started_at
  ts_hc : tsOK race.human.completed_at
  dur_agent : durRel race.agent
  dur_human : durRel race.human
  agent_started_of_completed : race.agent.started_at = none → race.agent.completed_at = none
  human_status_completed : race.human.completed_at ≠ none ↔ race.human.status = "completed"
  human_submitted : race.human.status = "completed" → race.human_submission ≠ none

/-- Per-race reachability invariant: the core fields plus the rest-point
property that dual readiness implies the judgement has been triggered
(every handler re-establishes it by ending in `_maybe_finalize`). -/
structure RaceInv (race : RaceState) extends RaceInvCore race : Prop where
  ready_triggered : agent_ready race = true → human_ready race = true →
    race.finalizing = true ∨ race.verdict.isSome = true

/-- Global reachability invariant: every registered race satisfies
`RaceInv`, and every run-to-race index entry points at a registered race
that has that run bound. -/
structure GInv (g : GlobalState) : Prop where
  races : ∀ rid race, g.RACE_STATES rid = some race → RaceInv race
  routes : ∀ run_id rid, g.RUN_TO_RACE run_id = some rid →
    ∃ race, g.RACE_STATES rid = some race ∧ race.agent_run_id = some run_id

theorem RaceInv_initial (rid : String) (task : RaceTask) (now : ℚ) :
    RaceInv { race_id := rid, task := task, created_at := now } := by
  refine ⟨⟨?_, ?_, ?_, ?_, ?_, ?_, ?_, ?_, ?_, ?_, ?_, ?_, ?_⟩, ?_⟩ <;>
    simp [tsOK, durRel, agent_ready, human_ready] <;> decide

/-- Case analysis of `maybe_finalize`: either the guard returns, readiness
fails, or the trigger fires. -/
theorem maybe_finalize_cases (race : RaceState) :
    (maybe_finalize race = race ∧ (race.verdict.isSome || race.finalizing) = true) ∨
    (maybe_finalize race = race ∧ (race.verdict.isSome || race.finalizing) = false ∧
      (agent_ready race && human_ready race) = false) ∨
    (maybe_finalize race = { race with finalizing := true, status := "judging" } ∧
      race.verdict.isSome = false ∧ race.finalizing = false ∧
      agent_ready race = true ∧ human_ready race = true) := by
  unfold maybe_finalize
  by_cases h1 : (race.verdict.isSome || race.finalizing) = true
  · left; simp [h1]
  · have h1' : (race.verdict.isSome || race.finalizing) = false := by
      simpa using h1
    by_cases h2 : (agent_ready race && human_ready race) = true
    · right; right
      have hv : race.verdict.isSome = false := by
        rcases Bool.or_eq_false_iff.mp h1' with ⟨hv, _⟩; exact hv
      have hf : race.finalizing = false := by
        rcases Bool.or_eq_false_iff.mp h1' with ⟨_, hf⟩; exact hf
      have ha : agent_ready race = true := (Bool.and_eq_true _ _).mp h2 |>.1
      have hh : human_ready race = true := (Bool.and_eq_true _ _).mp h2 |>.2
      simp [h1', h2, hv, hf, ha, hh]
    · right; left
      have h2' : (agent_ready race && human_ready race) = false := by simpa using h2
      simp [h1', h2']

/-- `maybe_finalize` never touches the participants, the task, the bound
run, the submission, or the verdict. -/
theorem maybe_finalize_frame (race : RaceState) :
    (maybe_finalize race).agent = race.agent ∧
    (maybe_finalize race).human = race.human ∧
    (maybe_finalize race).agent_run_id = race.agent_run_id ∧
    (maybe_finalize race).human_submission = race.human_submission ∧
    (maybe_finalize race).task = race.task ∧
    (maybe_finalize race).verdict = race.verdict := by
  rcases maybe_finalize_cases race with ⟨heq, _⟩ | ⟨heq, _, _⟩ | ⟨heq, _, _, _, _⟩ <;>
    rw [heq] <;> simp

/-- An agent with the default (pristine) participant state is not ready. -/
theorem agent_ready_pristine (race : RaceState) (h : race.agent = ({} : ParticipantState)) :
    agent_ready race = false := by
  simp only [agent_ready, h]
  decide

theorem RaceInv_maybe_finalize {race : RaceState} (h : RaceInvCore race) :
    RaceInv (maybe_finalize race) := by
  rcases maybe_finalize_cases race with ⟨heq, hg⟩ | ⟨heq, _, hnr⟩ | ⟨heq, hv, hf, ha, hh⟩
  · rw [heq]
    refine ⟨h, ?_⟩
    intro _ _
    rcases Bool.or_eq_true_iff.mp hg with hv | hf
    · right; exact hv
    · left; exact hf
  · rw [heq]
    refine ⟨h, ?_⟩
    intro ha hh
    rw [ha, hh] at hnr
    exact absurd hnr (by simp)
  · rw [heq]
    refine ⟨⟨?_, ?_, ?_, ?_, ?_, ?_, ?_, ?_, ?_, ?_, ?_, ?_, ?_⟩, ?_⟩
    · intro hm; simp only at hm; rw [hm] at hv; simp at hv
    · intro _; left; rfl
    · intro hnone
      simp only at hnone
      have hpr := (h.unregistered hnone).1
      have : agent_ready race = false := agent_ready_pristine race hpr
      rw [this] at ha; exact absurd ha (by simp)
    · intro run_id hrun
      simp only at hrun
      exact h.registered_started run_id hrun
    · exact h.ts_as
    · exact h.ts_ac
    · exact h.ts_hs
    · exact h.ts_hc
    · exact h.dur_agent
    · exact h.dur_human
    · exact h.agent_started_of_completed
    · exact h.human_status_completed
    · exact h.human_submitted
    · intro _ _; left; rfl

theorem pyOrF_pos {x : Option ℚ} (hx : tsOK x) {y : ℚ} (hy : 0 < y) : 0 < pyOrF x y := by
  cases x with
  | none => simpa [pyOrF] using hy
  | some q =>
      by_cases hq : q = 0
      · simp [pyOrF, hq, hy]
      · simpa [pyOrF, hq] using hx q rfl

theorem pyOrF_of_pos {c : ℚ} (hc : 0 < c) (y : ℚ) : pyOrF (some c) y = c := by
  simp [pyOrF, ne_of_gt hc]

theorem truthyF_of_pos {a : ℚ} (ha : 0 < a) : truthyF (some a) = true := by
  simp [truthyF]
  exact ne_of_gt ha

/-- Core invariant preservation for updates that replace only the agent
participant of a registered race. -/
theorem RaceInvCore_set_agent {race : RaceState} (h : RaceInvCore race)
    (p : ParticipantState) (hrun : race.agent_run_id ≠ none)
    (hs : ∃ a, p.started_at = some a)
    (hts : tsOK p.started_at) (htc : tsOK p.completed_at) (hdur : durRel p) :
    RaceInvCore { race with agent := p } := by
  refine ⟨?_, ?_, ?_, ?_, ?_, ?_, ?_, ?_, ?_, ?_, ?_, ?_, ?_⟩
  · exact h.verdict_completed
  · exact h.judging_triggered
  · intro hnone; exact absurd hnone hrun
  · intro rid _; exact hs
  · exact hts
  · exact htc
  · exact h.ts_hs
  · exact h.ts_hc
  · exact hdur
  · exact h.dur_human
  · intro hn; obtain ⟨a, ha⟩ := hs; rw [ha] at hn; cases hn
  · exact h.human_status_completed
  · exact h.human_submitted

/-- The event-dispatch block preserves the core invariant on a registered
race (events only reach registered races; see `GInv.routes`). -/
theorem RaceInvCore_apply_run_event {race : RaceState} (h : RaceInvCore race)
    {run_id : String} (hreg : race.agent_run_id = some run_id)
    (e : Event) {now : ℚ} (hnow : 0 < now) :
    RaceInvCore (apply_run_event race e now) := by
  have hrun : race.agent_run_id ≠ none := by rw [hreg]; simp
  obtain ⟨a, ha⟩ := h.registered_started run_id hreg
  have hapos : 0 < a := h.ts_as a ha
  cases e with
  | other => exact h
  | status s =>
      cases s with
      | none => exact h
      | some st =>
          by_cases hst : st = ""
          · simpa [apply_run_event, hst] using h
          · have hcond : ¬(st = "running" ∧ race.agent.started_at = none) := by
              rintro ⟨-, hn⟩; rw [ha] at hn; cases hn
            simp only [apply_run_event, if_neg hst, if_neg hcond]
            refine RaceInvCore_set_agent h _ hrun ⟨a, ha⟩ h.ts_as h.ts_ac ?_
            exact ⟨h.dur_agent.1, h.dur_agent.2⟩
  | liveUrl u =>
      cases u with
      | none => exact h
      | some url =>
          by_cases hu : url = ""
          · simpa [apply_run_event, hu] using h
          · simp only [apply_run_event, if_neg hu]
            exact RaceInvCore_set_agent h _ hrun ⟨a, ha⟩ h.ts_as h.ts_ac
              ⟨h.dur_agent.1, h.dur_agent.2⟩
  | error =>
      exact RaceInvCore_set_agent h _ hrun ⟨a, ha⟩ h.ts_as h.ts_ac
        ⟨h.dur_agent.1, h.dur_agent.2⟩
  | result r =>
      cases r with
      | none => exact h
      | some res =>
          simp only [apply_run_event]
          have hcpos : 0 < pyOrF race.agent.completed_at now := pyOrF_pos h.ts_ac hnow
          refine RaceInvCore_set_agent h _ hrun ⟨a, ha⟩ h.ts_as ?_ ?_
          · intro t ht
            simp only [Option.some.injEq] at ht
            rw [ht] at hcpos; exact hcpos
          · constructor
            · intro a' b' ha' hb'
              simp only [ha, Option.some.injEq] at ha'
              simp only [Option.some.injEq] at hb'
              rw [ha, truthyF_of_pos hapos]
              simp only [if_true, ha, Option.getD_some, Option.some.injEq]
              rw [← ha', ← hb']
            · rintro (hn | hn)
              · rw [ha] at hn; cases hn
              · cases hn
  | complete =>
      have hcpos : 0 < pyOrF race.agent.completed_at now := pyOrF_pos h.ts_ac hnow
      simp only [apply_run_event]
      refine ⟨?_, ?_, ?_, ?_, ?_, ?_, ?_, ?_, ?_, ?_, ?_, ?_, ?_⟩
      · intro hm
        simp only at hm
        obtain ⟨hst, hfin⟩ := h.verdict_completed hm
        have : ¬(race.status ≠ "judging" ∧ race.status ≠ "completed") := by
          rw [hst]; simp
        simp only [this, if_neg this]
        exact ⟨hst, hfin⟩
      · intro hj
        simp only at hj ⊢
        by_cases hg : race.status ≠ "judging" ∧ race.status ≠ "completed"
        · rw [if_pos hg] at hj
          by_cases hh : race.human.status ≠ "completed"
          · rw [if_pos hh] at hj
            rcases hj with hj | hj <;> exact absurd hj (by decide)
          · rw [if_neg hh] at hj
            rcases hj with hj | hj
            · exact absurd hj hg.1
            · exact absurd hj hg.2
        · rw [if_neg hg] at hj
          exact h.judging_triggered hj
      · intro hnone; exact absurd hnone hrun
      · intro rid _; exact ⟨a, ha⟩
      · exact h.ts_as
      · intro t ht
        simp only [Option.some.injEq] at ht
        rw [ht] at hcpos; exact hcpos
      · exact h.ts_hs
      · exact h.ts_hc
      · constructor
        · intro a' b' ha' hb'
          simp only [ha, Option.some.injEq] at ha'
          simp only [Option.some.injEq] at hb'
          subst ha'
          cases hc : race.agent.completed_at with
          | none =>
              have hdn : race.agent.duration_seconds = none := h.dur_agent.2 (Or.inr hc)
              rw [ha, truthyF_of_pos hapos]
              simp only [hdn, and_true, if_true, ha, Option.getD_some, Option.some.injEq]
              rw [← hb', hc]
          | some c =>
              have hcpos' : 0 < c := h.ts_ac c hc
              have hd : race.agent.duration_seconds = some (ratSub c a) :=
                h.dur_agent.1 a c ha hc
              have hpy : pyOrF race.agent.completed_at now = c := by
                rw [hc]; exact pyOrF_of_pos hcpos' now
              have hdn : ¬(truthyF race.agent.started_at = true ∧
                  race.agent.duration_seconds = none) := by
                rintro ⟨-, hn⟩; rw [hd] at hn; cases hn
              simp only [if_neg hdn]
              rw [hpy] at hb'
              rw [hd, ← hb']
        · rintro (hn | hn)
          · rw [ha] at hn; cases hn
          · exact absurd hn (by simp)
      · exact h.dur_human
      · intro hn
        have hn' : race.agent.started_at = none := hn
        rw [ha] at hn'; cases hn'
      · exact h.human_status_completed
      · exact h.human_submitted

/-- Registration preserves the invariant (the race must be unbound, which
is exactly the non-raising path). -/
theorem RaceInv_register {race : RaceState} (h : RaceInvCore race)
    (run_id : String) {now : ℚ} (hnow : 0 < now)
    (hrun : race.agent_run_id = none) :
    RaceInv (register_agent_run_race race run_id now) := by
  obtain ⟨hpr, hst, hv, hf⟩ := h.unregistered hrun
  refine ⟨⟨?_, ?_, ?_, ?_, ?_, ?_, ?_, ?_, ?_, ?_, ?_, ?_, ?_⟩, ?_⟩
  · intro hm
    simp only [register_agent_run_race] at hm
    rw [hv] at hm; simp at hm
  · intro hj
    simp only [register_agent_run_race] at hj
    rcases hj with hj | hj <;> exact absurd hj (by decide)
  · intro hnone
    simp only [register_agent_run_race] at hnone
    cases hnone
  · intro rid _
    exact ⟨pyOrF race.agent.started_at now, rfl⟩
  · intro t ht
    simp only [register_agent_run_race, Option.some.injEq] at ht
    rw [← ht]
    exact pyOrF_pos h.ts_as hnow
  · show tsOK race.agent.completed_at
    rw [hpr]; intro t ht; cases ht
  · exact h.ts_hs
  · exact h.ts_hc
  · constructor
    · intro a b _ hb
      have hb' : race.agent.completed_at = some b := hb
      rw [hpr] at hb'; cases hb'
    · intro _
      show race.agent.duration_seconds = none
      rw [hpr]
  · exact h.dur_human
  · intro hn
    simp [register_agent_run_race] at hn
  · exact h.human_status_completed
  · exact h.human_submitted
  · intro ha _
    have : agent_ready (register_agent_run_race race run_id now) = false := by
      simp only [agent_ready, register_agent_run_race]
      rw [hpr]
      decide
    rw [this] at ha; cases ha

/-- `mark_human_started` preserves the invariant. -/
theorem RaceInv_mark_human_started {race : RaceState} (h : RaceInv race)
    {now : ℚ} (hnow : 0 < now) :
    RaceInv (mark_human_started_race race now) := by
  by_cases hc : race.human.status = "completed"
  · simpa [mark_human_started_race, hc] using h
  · by_cases hp : race.human.status = "pending"
    · have hcn : race.human.completed_at = none := by
        by_cases hx : race.human.completed_at = none
        · exact hx
        · exact absurd (h.human_status_completed.mp hx) hc
      have hdn : race.human.duration_seconds = none := h.dur_human.2 (Or.inr hcn)
      simp only [mark_human_started_race, if_neg hc, if_pos hp]
      by_cases hr : race.status = "ready"
      · rw [if_pos hr]
        refine ⟨⟨?_, ?_, ?_, ?_, ?_, ?_, ?_, ?_, ?_, ?_, ?_, ?_, ?_⟩, ?_⟩
        · intro hm
          simp only at hm
          obtain ⟨hst, -⟩ := h.verdict_completed hm
          rw [hr] at hst; exact absurd hst (by decide)
        · intro hj
          simp only at hj
          rcases hj with hj | hj <;> exact absurd hj (by decide)
        · intro hnone
          obtain ⟨hpr, -, hv, hf⟩ := h.unregistered hnone
          exact ⟨hpr, Or.inr rfl, hv, hf⟩
        · exact h.registered_started
        · exact h.ts_as
        · exact h.ts_ac
        · intro t ht
          simp only [Option.some.injEq] at ht
          rw [← ht]; exact pyOrF_pos h.ts_hs hnow
        · exact h.ts_hc
        · exact h.dur_agent
        · constructor
          · intro a b _ hb
            have hb' : race.human.completed_at = some b := hb
            rw [hcn] at hb'; cases hb'
          · intro _; exact hdn
        · exact h.agent_started_of_completed
        · constructor
          · intro hne; exact absurd hcn hne
          · intro hst
            have hst' : "running" = "completed" := hst
            exact absurd hst' (by decide)
        · intro hst
          have hst' : "running" = "completed" := hst
          exact absurd hst' (by decide)
        · intro haR hhR
          have hhr : human_ready race = true := by
            simp only [human_ready] at hhR ⊢
            by_cases htt : (race.task.task_type == "text_entry") = true
            · rw [if_pos htt] at hhR; rw [if_pos htt]; exact hhR
            · rw [if_neg htt] at hhR
              exact absurd hhR (by decide)
          exact h.ready_triggered haR hhr
      · rw [if_neg hr]
        refine ⟨⟨?_, ?_, ?_, ?_, ?_, ?_, ?_, ?_, ?_, ?_, ?_, ?_, ?_⟩, ?_⟩
        · exact h.verdict_completed
        · exact h.judging_triggered
        · intro hnone
          obtain ⟨hpr, hsr, hv, hf⟩ := h.unregistered hnone
          exact ⟨hpr, hsr, hv, hf⟩
        · exact h.registered_started
        · exact h.ts_as
        · exact h.ts_ac
        · intro t ht
          simp only [Option.some.injEq] at ht
          rw [← ht]; exact pyOrF_pos h.ts_hs hnow
        · exact h.ts_hc
        · exact h.dur_agent
        · constructor
          · intro a b _ hb
            have hb' : race.human.completed_at = some b := hb
            rw [hcn] at hb'; cases hb'
          · intro _; exact hdn
        · exact h.agent_started_of_completed
        · constructor
          · intro hne; exact absurd hcn hne
          · intro hst
            have hst' : "running" = "completed" := hst
            exact absurd hst' (by decide)
        · intro hst
          have hst' : "running" = "completed" := hst
          exact absurd hst' (by decide)
        · intro haR hhR
          have hhr : human_ready race = true := by
            simp only [human_ready] at hhR ⊢
            by_cases htt : (race.task.task_type == "text_entry") = true
            · rw [if_pos htt] at hhR; rw [if_pos htt]; exact hhR
            · rw [if_neg htt] at hhR
              exact absurd hhR (by decide)
          exact h.ready_triggered haR hhr
    · simpa [mark_human_started_race, hc, hp] using h

/-- The judgement-completion step preserves the invariant. -/
theorem RaceInv_run_judgement_result {race : RaceState} (h : RaceInv race)
    (res : Except String Verdict) (hfin : race.finalizing = true) :
    RaceInv (run_judgement_result race res) := by
  have hfields : (run_judgement_result race res).agent = race.agent ∧
      (run_judgement_result race res).human = race.human ∧
      (run_judgement_result race res).agent_run_id = race.agent_run_id ∧
      (run_judgement_result race res).human_submission = race.human_submission ∧
      (run_judgement_result race res).status = "completed" ∧
      (run_judgement_result race res).finalizing = false ∧
      (run_judgement_result race res).verdict.isSome = true := by
    cases res <;> simp [run_judgement_result]
  obtain ⟨hag, hhu, hid, hsub, hst, hfi, hvs⟩ := hfields
  refine ⟨⟨?_, ?_, ?_, ?_, ?_, ?_, ?_, ?_, ?_, ?_, ?_, ?_, ?_⟩, ?_⟩
  · intro _; exact ⟨hst, hfi⟩
  · intro _; right; exact hvs
  · intro hnone
    rw [hid] at hnone
    obtain ⟨-, -, -, hf⟩ := h.unregistered hnone
    rw [hf] at hfin; cases hfin
  · intro rid hr
    rw [hid] at hr
    rw [hag]
    exact h.registered_started rid hr
  · rw [hag]; exact h.ts_as
  · rw [hag]; exact h.ts_ac
  · rw [hhu]; exact h.ts_hs
  · rw [hhu]; exact h.ts_hc
  · rw [hag]; exact h.dur_agent
  · rw [hhu]; exact h.dur_human
  · rw [hag]; exact h.agent_started_of_completed
  · rw [hhu]; exact h.human_status_completed
  · rw [hhu, hsub]; exact h.human_submitted
  · intro _ _; right; exact hvs

/-- Core invariant preservation for the human-completion update of
`record_human_submission` (human participant replaced by a completed state,
submission stored). -/
theorem RaceInvCore_set_human {race : RaceState} (h : RaceInvCore race)
    (p : ParticipantState) (sub : String)
    (hts : tsOK p.started_at) (htc : tsOK p.completed_at) (hdur : durRel p)
    (hpc : p.status = "completed") (hcc : p.completed_at ≠ none) :
    RaceInvCore { race with human := p, human_submission := some sub } := by
  refine ⟨?_, ?_, ?_, ?_, ?_, ?_, ?_, ?_, ?_, ?_, ?_, ?_, ?_⟩
  · exact h.verdict_completed
  · exact h.judging_triggered
  · intro hnone; exact h.unregistered hnone
  · exact h.registered_started
  · exact h.ts_as
  · exact h.ts_ac
  · exact hts
  · exact htc
  · exact h.dur_agent
  · exact hdur
  · exact h.agent_started_of_completed
  · exact ⟨fun _ => hpc, fun _ => hcc⟩
  · intro _; simp

theorem tsOK_some {x : ℚ} (hx : 0 < x) : tsOK (some x) := by
  intro t ht; cases ht; exact hx

theorem durRel_build {p : ParticipantState} {a b : ℚ}
    (hs : p.started_at = some a) (hc : p.completed_at = some b)
    (hd : p.duration_seconds = some (ratSub b a)) : durRel p := by
  constructor
  · intro a' b' ha' hb'
    rw [hs] at ha'; rw [hc] at hb'
    cases ha'; cases hb'
    exact hd
  · rintro (hn | hn)
    · rw [hs] at hn; cases hn
    · rw [hc] at hn; cases hn

/-- `record_human_submission` preserves the invariant. -/
theorem RaceInv_record_human_submission {race : RaceState} (h : RaceInvCore race)
    (sub : Option String) {t1 t2 : ℚ} (ht1 : 0 < t1) (ht2 : 0 < t2) :
    RaceInv (record_human_submission_race race sub t1 t2) := by
  have hC : 0 < pyOrF race.human.completed_at t2 := pyOrF_pos h.ts_hc ht2
  unfold record_human_submission_race
  apply RaceInv_maybe_finalize
  by_cases hp : race.human.status = "pending"
  · -- the human was pending: start it at t1, complete it at t2
    have hcn : race.human.completed_at = none := by
      by_cases hy : race.human.completed_at = none
      · exact hy
      · exact absurd (h.human_status_completed.mp hy) (by rw [hp]; decide)
    have hdn : race.human.duration_seconds = none := h.dur_human.2 (Or.inr hcn)
    have hA : 0 < pyOrF race.human.started_at t1 := pyOrF_pos h.ts_hs ht1
    have hCn : 0 < pyOrF (none : Option ℚ) t2 := by simpa [pyOrF] using ht2
    simp only [hp, reduceIte, truthyF_of_pos hA, hcn, hdn, and_true, if_true,
      Option.getD_some]
    by_cases htt : race.task.task_type = "text_entry" <;>
      simp only [htt, reduceIte] <;>
      exact RaceInvCore_set_human h _ _ (tsOK_some hA) (tsOK_some hCn)
        (durRel_build rfl rfl rfl) rfl (by simp)
  · -- the human was already running or completed
    rw [if_neg hp]
    have hdur : ∀ res : Option String, durRel
        { status := "completed"
          started_at := race.human.started_at
          completed_at := some (pyOrF race.human.completed_at t2)
          duration_seconds :=
            if truthyF race.human.started_at = true ∧ race.human.duration_seconds = none then
              some (ratSub (pyOrF race.human.completed_at t2) (race.human.started_at.getD 0))
            else race.human.duration_seconds
          result := res
          live_url := race.human.live_url } := by
      intro res
      cases hs : race.human.started_at with
      | none =>
          have hdn : race.human.duration_seconds = none := h.dur_human.2 (Or.inl hs)
          constructor
          · intro a' b' ha' hb'
            simp only [hs] at ha'; cases ha'
          · intro _
            simp [hs, hdn, truthyF]
      | some a =>
          have hapos : 0 < a := h.ts_hs a hs
          refine durRel_build (a := a) (b := pyOrF race.human.completed_at t2)
            (by simp [hs]) (by simp) ?_
          cases hd : race.human.duration_seconds with
          | none => simp [hs, hd, truthyF_of_pos hapos]
          | some d =>
              have hcs : race.human.completed_at ≠ none := by
                intro hx
                have hq := h.dur_human.2 (Or.inr hx)
                rw [hd] at hq; cases hq
              obtain ⟨c, hc⟩ := Option.ne_none_iff_exists'.mp hcs
              have hcpos : 0 < c := h.ts_hc c hc
              have hdval : d = ratSub c a := by
                have hq := h.dur_human.1 a c hs hc
                rw [hd] at hq; cases hq; rfl
              have hCc : pyOrF race.human.completed_at t2 = c := by
                rw [hc]; exact pyOrF_of_pos hcpos t2
              simp [hs, hd, hCc, hdval]
    by_cases htt : race.task.task_type = "text_entry"
    · rw [if_pos htt]
      exact RaceInvCore_set_human h _ _ h.ts_hs (tsOK_some hC) (hdur _) rfl (by simp)
    · rw [if_neg htt]
      exact RaceInvCore_set_human h _ _ h.ts_hs (tsOK_some hC) (hdur _) rfl (by simp)

/-! ## Global invariant preservation -/

theorem dictSet_eq {α : Type} (f : String → Option α) (k : String) (v : α) :
    dictSet f k v k = some v := by simp [dictSet]

theorem dictSet_ne {α : Type} (f : String → Option α) {k k' : String} (v : α)
    (h : k' ≠ k) : dictSet f k v k' = f k' := by simp [dictSet, h]

theorem dictRemove_ne {α : Type} (f : String → Option α) {k k' : String}
    (h : k' ≠ k) : dictRemove f k k' = f k' := by simp [dictRemove, h]

theorem dictRemoveValue_some {f : String → Option String} {v k : String} {w : String}
    (h : dictRemoveValue f v k = some w) : f k = some w ∧ w ≠ v := by
  unfold dictRemoveValue at h
  cases hf : f k with
  | none => rw [hf] at h; cases h
  | some u =>
      rw [hf] at h
      have h' : (if u = v then none else some u) = some w := h
      by_cases hu : u = v
      · rw [if_pos hu] at h'; cases h'
      · rw [if_neg hu] at h'
        cases h'
        exact ⟨rfl, hu⟩

theorem maybe_finalize_agent_run_id (r : RaceState) :
    (maybe_finalize r).agent_run_id = r.agent_run_id :=
  (maybe_finalize_frame r).2.2.1

/-- The event-dispatch block never touches the run binding, the human
side, the submission, the verdict, or the guard. -/
theorem apply_run_event_frame (race : RaceState) (e : Event) (now : ℚ) :
    (apply_run_event race e now).agent_run_id = race.agent_run_id ∧
    (apply_run_event race e now).human = race.human ∧
    (apply_run_event race e now).human_submission = race.human_submission ∧
    (apply_run_event race e now).verdict = race.verdict ∧
    (apply_run_event race e now).finalizing = race.finalizing ∧
    (apply_run_event race e now).task = race.task := by
  cases e with
  | status s =>
      cases s with
      | none => simp [apply_run_event]
      | some st => by_cases hst : st = "" <;> simp [apply_run_event, hst]
  | liveUrl u =>
      cases u with
      | none => simp [apply_run_event]
      | some url => by_cases hu : url = "" <;> simp [apply_run_event, hu]
  | result r =>
      cases r with
      | none => simp [apply_run_event]
      | some res => simp [apply_run_event]
  | error => simp [apply_run_event]
  | complete => simp [apply_run_event]
  | other => simp [apply_run_event]

theorem record_human_submission_race_agent_run_id (race : RaceState)
    (sub : Option String) (t1 t2 : ℚ) :
    (record_human_submission_race race sub t1 t2).agent_run_id = race.agent_run_id := by
  show (maybe_finalize _).agent_run_id = race.agent_run_id
  rw [maybe_finalize_agent_run_id]
  by_cases htt : race.task.task_type = "text_entry" <;>
    by_cases hp : race.human.status = "pending" <;>
    simp [record_human_submission_race, htt, hp]

theorem mark_human_started_race_agent_run_id (race : RaceState) (now : ℚ) :
    (mark_human_started_race race now).agent_run_id = race.agent_run_id := by
  unfold mark_human_started_race
  by_cases h1 : race.human.status = "completed" <;>
    by_cases h2 : race.human.status = "pending" <;>
    by_cases h3 : race.status = "ready" <;>
    simp [h1, h2, h3]

theorem run_judgement_result_agent_run_id (race : RaceState) (res : Except String Verdict) :
    (run_judgement_result race res).agent_run_id = race.agent_run_id := by
  cases res <;> rfl

theorem GInv_step {g : GlobalState} (h : GInv g) {op : Op} (hwf : opWF op) :
    GInv (stepOp g op) := by
  cases op with
  | createRace rid task now =>
      by_cases hex : (g.RACE_STATES rid).isSome = true
      · simpa [stepOp, hex] using h
      · have hex' : g.RACE_STATES rid = none := by
          cases hx : g.RACE_STATES rid
          · rfl
          · rw [hx] at hex; exact absurd rfl hex
        simp only [stepOp, hex, Bool.false_eq_true, if_false, create_race]
        constructor
        · intro rid' race' hr'
          have hr'' : dictSet g.RACE_STATES rid _ rid' = some race' := hr'
          by_cases hrr : rid' = rid
          · rw [hrr, dictSet_eq] at hr''
            cases hr''
            exact RaceInv_initial rid task now
          · rw [dictSet_ne _ _ hrr] at hr''
            exact h.races rid' race' hr''
        · intro run_id rid0 hrt
          have hrt' : g.RUN_TO_RACE run_id = some rid0 := hrt
          obtain ⟨race0, hrc0, hb0⟩ := h.routes run_id rid0 hrt'
          by_cases hrr : rid0 = rid
          · rw [hrr, hex'] at hrc0; cases hrc0
          · refine ⟨race0, ?_, hb0⟩
            show dictSet g.RACE_STATES rid _ rid0 = some race0
            rw [dictSet_ne _ _ hrr]; exact hrc0
  | registerRun rid run_id now =>
      cases hx : g.RACE_STATES rid with
      | none =>
          have : stepOp g (Op.registerRun rid run_id now) = g := by
            simp [stepOp, register_agent_run, hx]
          rw [this]; exact h
      | some race =>
          by_cases hrun : race.agent_run_id ≠ none
          · have : stepOp g (Op.registerRun rid run_id now) = g := by
              simp [stepOp, register_agent_run, hx, hrun]
            rw [this]; exact h
          · have hrun' : race.agent_run_id = none := by simpa using hrun
            have hstep : stepOp g (Op.registerRun rid run_id now) =
                { RACE_STATES := dictSet g.RACE_STATES rid
                    (register_agent_run_race race run_id now)
                  RUN_TO_RACE := dictSet g.RUN_TO_RACE run_id rid } := by
              simp [stepOp, register_agent_run, hx, hrun']
            rw [hstep]
            constructor
            · intro rid' race' hr'
              have hr'' : dictSet g.RACE_STATES rid
                  (register_agent_run_race race run_id now) rid' = some race' := hr'
              by_cases hrr : rid' = rid
              · rw [hrr, dictSet_eq] at hr''
                cases hr''
                exact RaceInv_register (h.races rid race hx).toRaceInvCore run_id hwf hrun'
              · rw [dictSet_ne _ _ hrr] at hr''
                exact h.races rid' race' hr''
            · intro run_id' rid0 hrt
              have hrt' : dictSet g.RUN_TO_RACE run_id rid run_id' = some rid0 := hrt
              by_cases hqq : run_id' = run_id
              · subst hqq
                rw [dictSet_eq] at hrt'
                cases hrt'
                refine ⟨register_agent_run_race race run_id' now, ?_, rfl⟩
                show dictSet g.RACE_STATES rid _ rid = _
                rw [dictSet_eq]
              · rw [dictSet_ne _ _ hqq] at hrt'
                obtain ⟨race0, hrc0, hb0⟩ := h.routes run_id' rid0 hrt'
                by_cases hrr : rid0 = rid
                · rw [hrr, hx] at hrc0
                  cases hrc0
                  rw [hrun'] at hb0; cases hb0
                · refine ⟨race0, ?_, hb0⟩
                  show dictSet g.RACE_STATES rid _ rid0 = some race0
                  rw [dictSet_ne _ _ hrr]; exact hrc0
  | runEvent run_id e now =>
      cases hrt : g.RUN_TO_RACE run_id with
      | none =>
          have : stepOp g (Op.runEvent run_id e now) = g := by
            simp [stepOp, handle_run_event, hrt]
          rw [this]; exact h
      | some race_id =>
          by_cases hempty : race_id = ""
          · have : stepOp g (Op.runEvent run_id e now) = g := by
              simp [stepOp, handle_run_event, hrt, hempty]
            rw [this]; exact h
          · obtain ⟨race0, hrc0, hb0⟩ := h.routes run_id race_id hrt
            have hstep : stepOp g (Op.runEvent run_id e now) =
                { RACE_STATES := dictSet g.RACE_STATES race_id
                    (maybe_finalize (apply_run_event race0 e now))
                  RUN_TO_RACE :=
                    if e = Event.complete then dictRemove g.RUN_TO_RACE run_id
                    else g.RUN_TO_RACE } := by
              simp [stepOp, handle_run_event, hrt, hempty, hrc0]
            rw [hstep]
            constructor
            · intro rid' race' hr'
              have hr'' : dictSet g.RACE_STATES race_id
                  (maybe_finalize (apply_run_event race0 e now)) rid' = some race' := hr'
              by_cases hrr : rid' = race_id
              · rw [hrr, dictSet_eq] at hr''
                cases hr''
                exact RaceInv_maybe_finalize
                  (RaceInvCore_apply_run_event (h.races race_id race0 hrc0).toRaceInvCore
                    hb0 e hwf)
              · rw [dictSet_ne _ _ hrr] at hr''
                exact h.races rid' race' hr''
            · intro run_id' rid0 hrt0
              have hrt1 : (if e = Event.complete then dictRemove g.RUN_TO_RACE run_id
                  else g.RUN_TO_RACE) run_id' = some rid0 := hrt0
              by_cases hce : e = Event.complete
              · rw [if_pos hce] at hrt1
                by_cases hqq : run_id' = run_id
                · rw [hqq] at hrt1
                  unfold dictRemove at hrt1
                  simp at hrt1
                · rw [dictRemove_ne _ hqq] at hrt1
                  obtain ⟨race1, hrc1, hb1⟩ := h.routes run_id' rid0 hrt1
                  by_cases hrr : rid0 = race_id
                  · rw [hrr, hrc0] at hrc1
                    cases hrc1
                    rw [hb0] at hb1
                    cases hb1
                    exact absurd rfl hqq
                  · refine ⟨race1, ?_, hb1⟩
                    show dictSet g.RACE_STATES race_id _ rid0 = some race1
                    rw [dictSet_ne _ _ hrr]; exact hrc1
              · rw [if_neg hce] at hrt1
                obtain ⟨race1, hrc1, hb1⟩ := h.routes run_id' rid0 hrt1
                by_cases hrr : rid0 = race_id
                · rw [hrr, hrc0] at hrc1
                  cases hrc1
                  refine ⟨maybe_finalize (apply_run_event race0 e now), ?_, ?_⟩
                  · show dictSet g.RACE_STATES race_id _ rid0 = _
                    rw [hrr, dictSet_eq]
                  · rw [maybe_finalize_agent_run_id, (apply_run_event_frame race0 e now).1]
                    exact hb1
                · refine ⟨race1, ?_, hb1⟩
                  show dictSet g.RACE_STATES race_id _ rid0 = some race1
                  rw [dictSet_ne _ _ hrr]; exact hrc1
  | humanSubmit rid sub t1 t2 =>
      cases hx : g.RACE_STATES rid with
      | none =>
          have : stepOp g (Op.humanSubmit rid sub t1 t2) = g := by
            simp [stepOp, record_human_submission, hx]
          rw [this]; exact h
      | some race =>
          have hstep : stepOp g (Op.humanSubmit rid sub t1 t2) =
              { RACE_STATES := dictSet g.RACE_STATES rid
                  (record_human_submission_race race sub t1 t2)
                RUN_TO_RACE := g.RUN_TO_RACE } := by
            simp [stepOp, record_human_submission, hx]
          rw [hstep]
          constructor
          · intro rid' race' hr'
            have hr'' : dictSet g.RACE_STATES rid
                (record_human_submission_race race sub t1 t2) rid' = some race' := hr'
            by_cases hrr : rid' = rid
            · rw [hrr, dictSet_eq] at hr''
              cases hr''
              exact RaceInv_record_human_submission (h.races rid race hx).toRaceInvCore
                sub hwf.1 hwf.2
            · rw [dictSet_ne _ _ hrr] at hr''
              exact h.races rid' race' hr''
          · intro run_id' rid0 hrt0
            have hrt1 : g.RUN_TO_RACE run_id' = some rid0 := hrt0
            obtain ⟨race1, hrc1, hb1⟩ := h.routes run_id' rid0 hrt1
            by_cases hrr : rid0 = rid
            · rw [hrr, hx] at hrc1
              cases hrc1
              refine ⟨record_human_submission_race race sub t1 t2, ?_, ?_⟩
              · show dictSet g.RACE_STATES rid _ rid0 = _
                rw [hrr, dictSet_eq]
              · rw [record_human_submission_race_agent_run_id]
                exact hb1
            · refine ⟨race1, ?_, hb1⟩
              show dictSet g.RACE_STATES rid _ rid0 = some race1
              rw [dictSet_ne _ _ hrr]; exact hrc1
  | humanStart rid now =>
      cases hx : g.RACE_STATES rid with
      | none =>
          have : stepOp g (Op.humanStart rid now) = g := by
            simp [stepOp, mark_human_started, hx]
          rw [this]; exact h
      | some race =>
          have hstep : stepOp g (Op.humanStart rid now) =
              { RACE_STATES := dictSet g.RACE_STATES rid (mark_human_started_race race now)
                RUN_TO_RACE := g.RUN_TO_RACE } := by
            simp [stepOp, mark_human_started, hx]
          rw [hstep]
          constructor
          · intro rid' race' hr'
            have hr'' : dictSet g.RACE_STATES rid
                (mark_human_started_race race now) rid' = some race' := hr'
            by_cases hrr : rid' = rid
            · rw [hrr, dictSet_eq] at hr''
              cases hr''
              exact RaceInv_mark_human_started (h.races rid race hx) hwf
            · rw [dictSet_ne _ _ hrr] at hr''
              exact h.races rid' race' hr''
          · intro run_id' rid0 hrt0
            have hrt1 : g.RUN_TO_RACE run_id' = some rid0 := hrt0
            obtain ⟨race1, hrc1, hb1⟩ := h.routes run_id' rid0 hrt1
            by_cases hrr : rid0 = rid
            · rw [hrr, hx] at hrc1
              cases hrc1
              refine ⟨mark_human_started_race race now, ?_, ?_⟩
              · show dictSet g.RACE_STATES rid _ rid0 = _
                rw [hrr, dictSet_eq]
              · rw [mark_human_started_race_agent_run_id]
                exact hb1
            · refine ⟨race1, ?_, hb1⟩
              show dictSet g.RACE_STATES rid _ rid0 = some race1
              rw [dictSet_ne _ _ hrr]; exact hrc1
  | judgeFinish rid res =>
      cases hx : g.RACE_STATES rid with
      | none =>
          have : stepOp g (Op.judgeFinish rid res) = g := by
            simp [stepOp, judge_task_finish, hx]
          rw [this]; exact h
      | some race =>
          by_cases hfin : race.finalizing = true
          · have hstep : stepOp g (Op.judgeFinish rid res) =
                { RACE_STATES := dictSet g.RACE_STATES rid (run_judgement_result race res)
                  RUN_TO_RACE := g.RUN_TO_RACE } := by
              simp [stepOp, judge_task_finish, hx, hfin]
            rw [hstep]
            constructor
            · intro rid' race' hr'
              have hr'' : dictSet g.RACE_STATES rid
                  (run_judgement_result race res) rid' = some race' := hr'
              by_cases hrr : rid' = rid
              · rw [hrr, dictSet_eq] at hr''
                cases hr''
                exact RaceInv_run_judgement_result (h.races rid race hx) res hfin
              · rw [dictSet_ne _ _ hrr] at hr''
                exact h.races rid' race' hr''
            · intro run_id' rid0 hrt0
              have hrt1 : g.RUN_TO_RACE run_id' = some rid0 := hrt0
              obtain ⟨race1, hrc1, hb1⟩ := h.routes run_id' rid0 hrt1
              by_cases hrr : rid0 = rid
              · rw [hrr, hx] at hrc1
                cases hrc1
                refine ⟨run_judgement_result race res, ?_, ?_⟩
                · show dictSet g.RACE_STATES rid _ rid0 = _
                  rw [hrr, dictSet_eq]
                · rw [run_judgement_result_agent_run_id]
                  exact hb1
              · refine ⟨race1, ?_, hb1⟩
                show dictSet g.RACE_STATES rid _ rid0 = some race1
                rw [dictSet_ne _ _ hrr]; exact hrc1
          · have : stepOp g (Op.judgeFinish rid res) = g := by
              simp [stepOp, judge_task_finish, hx, hfin]
            rw [this]; exact h
  | clearRace rid =>
      constructor
      · intro rid' race' hr'
        have hr'' : dictRemove g.RACE_STATES rid rid' = some race' := hr'
        by_cases hrr : rid' = rid
        · rw [hrr] at hr''
          unfold dictRemove at hr''
          simp at hr''
        · rw [dictRemove_ne _ hrr] at hr''
          exact h.races rid' race' hr''
      · intro run_id' rid0 hrt0
        have hrt1 : dictRemoveValue g.RUN_TO_RACE rid run_id' = some rid0 := hrt0
        obtain ⟨hold, hne⟩ := dictRemoveValue_some hrt1
        obtain ⟨race1, hrc1, hb1⟩ := h.routes run_id' rid0 hold
        refine ⟨race1, ?_, hb1⟩
        show dictRemove g.RACE_STATES rid rid0 = some race1
        rw [dictRemove_ne _ hne]; exact hrc1
theorem GInv_initState : GInv initState := by
  constructor
  · intro rid race hr; simp [initState] at hr
  · intro run_id rid hr; simp [initState] at hr

theorem GInv_foldl (ops : List Op) :
    ∀ g : GlobalState, GInv g → (∀ op ∈ ops, opWF op) → GInv (ops.foldl stepOp g) := by
  induction ops with
  | nil => intro g hg _; exact hg
  | cons op ops ih =>
      intro g hg hwf
      exact ih _ (GInv_step hg (hwf op (by simp))) (fun o ho => hwf o (by simp [ho]))

/-- Every reachable global state satisfies the invariant. -/
theorem GInv_reachable {g : GlobalState} (hg : ReachableG g) : GInv g := by
  obtain ⟨ops, hwf, rfl⟩ := hg
  exact GInv_foldl ops initState GInv_initState hwf

/-! ## Race-status ordering -/

/-- Position of a race status along
`ready → running → awaiting_human → judging → completed`. -/
def statusRank : String → ℕ := fun s =>
  if s = "running" then 1
  else if s = "awaiting_human" then 2
  else if s = "judging" then 3
  else if s = "completed" then 4
  else 0

theorem statusRank_le_four (s : String) : statusRank s ≤ 4 := by
  unfold statusRank
  split_ifs <;> omega

theorem statusRank_le_two {s : String} (h1 : s ≠ "judging") (h2 : s ≠ "completed") :
    statusRank s ≤ 2 := by
  unfold statusRank
  by_cases a : s = "running"
  · simp [a]
  · by_cases b : s = "awaiting_human"
    · simp [a, b]
    · simp [a, b, h1, h2]

theorem maybe_finalize_of_triggered {r : RaceState}
    (h : r.verdict.isSome = true ∨ r.finalizing = true) : maybe_finalize r = r := by
  unfold maybe_finalize
  rcases h with h | h <;> simp [h]

theorem maybe_finalize_status {r : RaceState} (h : RaceInvCore r) :
    statusRank r.status ≤ statusRank (maybe_finalize r).status ∧
    (∀ v, r.verdict = some v → (maybe_finalize r).status = r.status) := by
  rcases maybe_finalize_cases r with ⟨heq, _⟩ | ⟨heq, _, _⟩ | ⟨heq, hv, hf, _, _⟩
  · rw [heq]; exact ⟨le_refl _, fun _ _ => rfl⟩
  · rw [heq]; exact ⟨le_refl _, fun _ _ => rfl⟩
  · rw [heq]
    constructor
    · have hnj : r.status ≠ "judging" ∧ r.status ≠ "completed" := by
        constructor <;> intro hs
        · rcases h.judging_triggered (Or.inl hs) with hx | hx
          · rw [hx] at hf; cases hf
          · rw [hx] at hv; cases hv
        · rcases h.judging_triggered (Or.inr hs) with hx | hx
          · rw [hx] at hf; cases hf
          · rw [hx] at hv; cases hv
      have h2 : statusRank r.status ≤ 2 := statusRank_le_two hnj.1 hnj.2
      have h3 : statusRank ({ r with finalizing := true, status := "judging" } : RaceState).status = 3 := rfl
      omega
    · intro v hvv
      rw [hvv] at hv; cases hv

/-- The status after the event-dispatch block: unchanged, or advanced to
`awaiting_human` by a `complete` event under its guard. -/
theorem apply_run_event_status (race : RaceState) (e : Event) (now : ℚ) :
    (apply_run_event race e now).status = race.status ∨
    (e = Event.complete ∧ race.status ≠ "judging" ∧ race.status ≠ "completed" ∧
      race.human.status ≠ "completed" ∧
      (apply_run_event race e now).status = "awaiting_human") := by
  cases e with
  | status s =>
      cases s with
      | none => left; rfl
      | some st => by_cases hst : st = "" <;> simp [apply_run_event, hst]
  | liveUrl u =>
      cases u with
      | none => left; rfl
      | some url => by_cases hu : url = "" <;> simp [apply_run_event, hu]
  | result r =>
      cases r with
      | none => left; rfl
      | some res => left; rfl
  | error => left; rfl
  | complete =>
      by_cases hg : race.status ≠ "judging" ∧ race.status ≠ "completed"
      · by_cases hh : race.human.status ≠ "completed"
        · right
          refine ⟨rfl, hg.1, hg.2, hh, ?_⟩
          simp [apply_run_event, hg, hh]
        · left; simp [apply_run_event, hg, hh]
      · left; simp [apply_run_event, hg]
  | other => left; rfl

theorem register_agent_run_race_frame (race : RaceState) (run_id : String) (now : ℚ) :
    (register_agent_run_race race run_id now).verdict = race.verdict ∧
    (register_agent_run_race race run_id now).human = race.human ∧
    (register_agent_run_race race run_id now).status = "running" ∧
    (register_agent_run_race race run_id now).human_submission = race.human_submission ∧
    (register_agent_run_race race run_id now).finalizing = race.finalizing := by
  simp [register_agent_run_race]

theorem mark_human_started_race_status (race : RaceState) (now : ℚ) :
    ((mark_human_started_race race now).status = race.status ∨
      (race.status = "ready" ∧ (mark_human_started_race race now).status = "running")) ∧
    (mark_human_started_race race now).verdict = race.verdict ∧
    (mark_human_started_race race now).finalizing = race.finalizing := by
  unfold mark_human_started_race
  by_cases h1 : race.human.status = "completed"
  · simp [h1]
  · by_cases h2 : race.human.status = "pending"
    · by_cases h3 : race.status = "ready" <;> simp [h1, h2, h3]
    · simp [h1, h2]

theorem record_human_submission_race_status {race : RaceState}
    (sub : Option String) (t1 t2 : ℚ) :
    ((record_human_submission_race race sub t1 t2).status = race.status ∨
      ((record_human_submission_race race sub t1 t2).status = "judging" ∧
        race.verdict = none ∧ race.finalizing = false)) ∧
    (record_human_submission_race race sub t1 t2).verdict = race.verdict := by
  show ((maybe_finalize _).status = race.status ∨ _) ∧ (maybe_finalize _).verdict = race.verdict
  have hst : ∀ r3 : RaceState, r3.status = race.status → r3.verdict = race.verdict →
      r3.finalizing = race.finalizing →
      ((maybe_finalize r3).status = race.status ∨
        ((maybe_finalize r3).status = "judging" ∧ race.verdict = none ∧
          race.finalizing = false)) ∧
      (maybe_finalize r3).verdict = race.verdict := by
    intro r3 h3s h3v h3f
    rcases maybe_finalize_cases r3 with ⟨heq, _⟩ | ⟨heq, _, _⟩ | ⟨heq, hv, hf, _, _⟩
    · rw [heq]; exact ⟨Or.inl h3s, h3v⟩
    · rw [heq]; exact ⟨Or.inl h3s, h3v⟩
    · rw [heq]
      refine ⟨Or.inr ⟨rfl, ?_, ?_⟩, h3v⟩
      · rw [← h3v]
        cases hx : r3.verdict
        · rfl
        · rw [hx] at hv; cases hv
      · rw [← h3f, hf]
  apply hst
  · by_cases hp : race.human.status = "pending" <;>
      by_cases htt : race.task.task_type = "text_entry" <;>
      simp [record_human_submission_race, hp, htt]
  · by_cases hp : race.human.status = "pending" <;>
      by_cases htt : race.task.task_type = "text_entry" <;>
      simp [record_human_submission_race, hp, htt]
  · by_cases hp : race.human.status = "pending" <;>
      by_cases htt : race.task.task_type = "text_entry" <;>
      simp [record_human_submission_race, hp, htt]

/-- How one atomic step can affect a registered race: it is untouched,
transformed by exactly one of the five race-level operations (with
well-formed clock samples and the operation's enabling conditions), or
removed by `clear_race`. -/
theorem stepOp_race_cases (g : GlobalState) (op : Op) (rid : String) (race : RaceState)
    (hInv : GInv g) (hwf : opWF op) (hr : g.RACE_STATES rid = some race) :
    ((stepOp g op).RACE_STATES rid = some race) ∨
    (∃ run_id now, 0 < now ∧ race.agent_run_id = none ∧
      (stepOp g op).RACE_STATES rid = some (register_agent_run_race race run_id now)) ∨
    (∃ e now, 0 < now ∧ (∃ run_id, race.agent_run_id = some run_id) ∧
      (stepOp g op).RACE_STATES rid = some (maybe_finalize (apply_run_event race e now))) ∨
    (∃ sub t1 t2, 0 < t1 ∧ 0 < t2 ∧
      (stepOp g op).RACE_STATES rid = some (record_human_submission_race race sub t1 t2)) ∨
    (∃ now, 0 < now ∧
      (stepOp g op).RACE_STATES rid = some (mark_human_started_race race now)) ∨
    (∃ res, race.finalizing = true ∧
      (stepOp g op).RACE_STATES rid = some (run_judgement_result race res)) ∨
    ((stepOp g op).RACE_STATES rid = none ∧ op = Op.clearRace rid) := by
  cases op with
  | createRace rid' task now =>
      by_cases hex : (g.RACE_STATES rid').isSome = true
      · left
        have : stepOp g (Op.createRace rid' task now) = g := by simp [stepOp, hex]
        rw [this]; exact hr
      · have hne : rid ≠ rid' := by
          intro hq
          rw [hq] at hr
          rw [hr] at hex
          exact hex rfl
        left
        have hstep : stepOp g (Op.createRace rid' task now) = create_race g rid' task now := by
          simp [stepOp, hex]
        rw [hstep]
        show dictSet g.RACE_STATES rid' _ rid = some race
        rw [dictSet_ne _ _ hne]; exact hr
  | registerRun rid' run_id now =>
      cases hx : g.RACE_STATES rid' with
      | none =>
          left
          have : stepOp g (Op.registerRun rid' run_id now) = g := by
            simp [stepOp, register_agent_run, hx]
          rw [this]; exact hr
      | some race0 =>
          by_cases hrun : race0.agent_run_id ≠ none
          · left
            have : stepOp g (Op.registerRun rid' run_id now) = g := by
              simp [stepOp, register_agent_run, hx, hrun]
            rw [this]; exact hr
          · have hrun' : race0.agent_run_id = none := by simpa using hrun
            have hstep : stepOp g (Op.registerRun rid' run_id now) =
                { RACE_STATES := dictSet g.RACE_STATES rid'
                    (register_agent_run_race race0 run_id now)
                  RUN_TO_RACE := dictSet g.RUN_TO_RACE run_id rid' } := by
              simp [stepOp, register_agent_run, hx, hrun']
            by_cases hrr : rid = rid'
            · subst hrr
              rw [hr] at hx; cases hx
              right; left
              refine ⟨run_id, now, hwf, hrun', ?_⟩
              rw [hstep]
              show dictSet g.RACE_STATES rid _ rid = _
              rw [dictSet_eq]
            · left
              rw [hstep]
              show dictSet g.RACE_STATES rid' _ rid = some race
              rw [dictSet_ne _ _ hrr]; exact hr
  | runEvent run_id e now =>
      cases hrt : g.RUN_TO_RACE run_id with
      | none =>
          left
          have : stepOp g (Op.runEvent run_id e now) = g := by
            simp [stepOp, handle_run_event, hrt]
          rw [this]; exact hr
      | some race_id =>
          by_cases hempty : race_id = ""
          · left
            have : stepOp g (Op.runEvent run_id e now) = g := by
              simp [stepOp, handle_run_event, hrt, hempty]
            rw [this]; exact hr
          · obtain ⟨race0, hrc0, hb0⟩ := hInv.routes run_id race_id hrt
            have hstep : stepOp g (Op.runEvent run_id e now) =
                { RACE_STATES := dictSet g.RACE_STATES race_id
                    (maybe_finalize (apply_run_event race0 e now))
                  RUN_TO_RACE :=
                    if e = Event.complete then dictRemove g.RUN_TO_RACE run_id
                    else g.RUN_TO_RACE } := by
              simp [stepOp, handle_run_event, hrt, hempty, hrc0]
            by_cases hrr : rid = race_id
            · subst hrr
              rw [hr] at hrc0; cases hrc0
              right; right; left
              refine ⟨e, now, hwf, ⟨run_id, hb0⟩, ?_⟩
              rw [hstep]
              show dictSet g.RACE_STATES rid _ rid = _
              rw [dictSet_eq]
            · left
              rw [hstep]
              show dictSet g.RACE_STATES race_id _ rid = some race
              rw [dictSet_ne _ _ hrr]; exact hr
  | humanSubmit rid' sub t1 t2 =>
      cases hx : g.RACE_STATES rid' with
      | none =>
          left
          have : stepOp g (Op.humanSubmit rid' sub t1 t2) = g := by
            simp [stepOp, record_human_submission, hx]
          rw [this]; exact hr
      | some race0 =>
          have hstep : stepOp g (Op.humanSubmit rid' sub t1 t2) =
              { RACE_STATES := dictSet g.RACE_STATES rid'
                  (record_human_submission_race race0 sub t1 t2)
                RUN_TO_RACE := g.RUN_TO_RACE } := by
            simp [stepOp, record_human_submission, hx]
          by_cases hrr : rid = rid'
          · subst hrr
            rw [hr] at hx; cases hx
            right; right; right; left
            refine ⟨sub, t1, t2, hwf.1, hwf.2, ?_⟩
            rw [hstep]
            show dictSet g.RACE_STATES rid _ rid = _
            rw [dictSet_eq]
          · left
            rw [hstep]
            show dictSet g.RACE_STATES rid' _ rid = some race
            rw [dictSet_ne _ _ hrr]; exact hr
  | humanStart rid' now =>
      cases hx : g.RACE_STATES rid' with
      | none =>
          left
          have : stepOp g (Op.humanStart rid' now) = g := by
            simp [stepOp, mark_human_started, hx]
          rw [this]; exact hr
      | some race0 =>
          have hstep : stepOp g (Op.humanStart rid' now) =
              { RACE_STATES := dictSet g.RACE_STATES rid'
                  (mark_human_started_race race0 now)
                RUN_TO_RACE := g.RUN_TO_RACE } := by
            simp [stepOp, mark_human_started, hx]
          by_cases hrr : rid = rid'
          · subst hrr
            rw [hr] at hx; cases hx
            right; right; right; right; left
            refine ⟨now, hwf, ?_⟩
            rw [hstep]
            show dictSet g.RACE_STATES rid _ rid = _
            rw [dictSet_eq]
          · left
            rw [hstep]
            show dictSet g.RACE_STATES rid' _ rid = some race
            rw [dictSet_ne _ _ hrr]; exact hr
  | judgeFinish rid' res =>
      cases hx : g.RACE_STATES rid' with
      | none =>
          left
          have : stepOp g (Op.judgeFinish rid' res) = g := by
            simp [stepOp, judge_task_finish, hx]
          rw [this]; exact hr
      | some race0 =>
          by_cases hfin : race0.finalizing = true
          · have hstep : stepOp g (Op.judgeFinish rid' res) =
                { RACE_STATES := dictSet g.RACE_STATES rid' (run_judgement_result race0 res)
                  RUN_TO_RACE := g.RUN_TO_RACE } := by
              simp [stepOp, judge_task_finish, hx, hfin]
            by_cases hrr : rid = rid'
            · subst hrr
              rw [hr] at hx; cases hx
              right; right; right; right; right; left
              refine ⟨res, hfin, ?_⟩
              rw [hstep]
              show dictSet g.RACE_STATES rid _ rid = _
              rw [dictSet_eq]
            · left
              rw [hstep]
              show dictSet g.RACE_STATES rid' _ rid = some race
              rw [dictSet_ne _ _ hrr]; exact hr
          · left
            have : stepOp g (Op.judgeFinish rid' res) = g := by
              simp [stepOp, judge_task_finish, hx, hfin]
            rw [this]; exact hr
  | clearRace rid' =>
      by_cases hrr : rid = rid'
      · right; right; right; right; right; right
        subst hrr
        refine ⟨?_, rfl⟩
        show dictRemove g.RACE_STATES rid rid = none
        unfold dictRemove
        simp
      · left
        show dictRemove g.RACE_STATES rid' rid = some race
        rw [dictRemove_ne _ hrr]; exact hr

theorem not_judging_completed {race : RaceState} (h : RaceInvCore race)
    (hv : race.verdict = none) (hf : race.finalizing = false) :
    race.status ≠ "judging" ∧ race.status ≠ "completed" := by
  constructor <;> intro hs
  · rcases h.judging_triggered (Or.inl hs) with hx | hx
    · rw [hf] at hx; cases hx
    · rw [hv] at hx; cases hx
  · rcases h.judging_triggered (Or.inr hs) with hx | hx
    · rw [hf] at hx; cases hx
    · rw [hv] at hx; cases hx

/-- Claim C2: under every operation, the race-level status of every
registered race of a reachable state only moves forward along
`ready → running → awaiting_human → judging → completed`; and once the
verdict is set, the status is `completed` and both verdict and status stay
fixed. -/
theorem race_status_monotonic_verdict_final
    (g : GlobalState) (op : Op) (rid : String) (race race' : RaceState)
    (hreach : ReachableG g) (hwf : opWF op)
    (hr : g.RACE_STATES rid = some race)
    (hr' : (stepOp g op).RACE_STATES rid = some race') :
    statusRank race.status ≤ statusRank race'.status ∧
    (∀ v, race.verdict = some v →
      race'.verdict = some v ∧ race.status = "completed" ∧ race'.status = "completed") := by
  have hInv := GInv_reachable hreach
  have hR := hInv.races rid race hr
  rcases stepOp_race_cases g op rid race hInv hwf hr with
    hsame | ⟨run_id, now, hnow, hrun, heq⟩ | ⟨e, now, hnow, ⟨run_id, hb⟩, heq⟩ |
    ⟨sub, t1, t2, ht1, ht2, heq⟩ | ⟨now, hnow, heq⟩ | ⟨res, hfin, heq⟩ | ⟨hnone, -⟩
  · rw [hsame] at hr'; cases hr'
    refine ⟨le_refl _, fun v hv => ?_⟩
    have hstc := (hR.verdict_completed (by rw [hv]; rfl)).1
    exact ⟨hv, hstc, hstc⟩
  · rw [heq] at hr'; cases hr'
    obtain ⟨hpr, hst, hvnone, hfin0⟩ := hR.unregistered hrun
    constructor
    · show statusRank race.status ≤ statusRank "running"
      rcases hst with hst | hst <;> rw [hst] <;> decide
    · intro v hv; rw [hvnone] at hv; cases hv
  · rw [heq] at hr'; cases hr'
    have hcore := RaceInvCore_apply_run_event hR.toRaceInvCore hb e hnow
    constructor
    · have h1 : statusRank race.status ≤ statusRank (apply_run_event race e now).status := by
        rcases apply_run_event_status race e now with hx | ⟨-, hj, hc, -, hx⟩
        · rw [hx]
        · rw [hx]
          have h2 := statusRank_le_two hj hc
          have h3 : statusRank "awaiting_human" = 2 := rfl
          omega
      exact le_trans h1 (maybe_finalize_status hcore).1
    · intro v hv
      have hverr : (apply_run_event race e now).verdict = race.verdict :=
        (apply_run_event_frame race e now).2.2.2.1
      have htrig : maybe_finalize (apply_run_event race e now) = apply_run_event race e now :=
        maybe_finalize_of_triggered (Or.inl (by rw [hverr, hv]; rfl))
      have hstc : race.status = "completed" := (hR.verdict_completed (by rw [hv]; rfl)).1
      have happ : (apply_run_event race e now).status = race.status := by
        rcases apply_run_event_status race e now with hx | ⟨-, -, hc, -, -⟩
        · exact hx
        · exact absurd hstc hc
      exact ⟨by rw [htrig, hverr]; exact hv, hstc, by rw [htrig, happ]; exact hstc⟩
  · rw [heq] at hr'; cases hr'
    obtain ⟨hstat, hverd⟩ := @record_human_submission_race_status race sub t1 t2
    constructor
    · rcases hstat with hx | ⟨hx, hv0, hf0⟩
      · rw [hx]
      · rw [hx]
        obtain ⟨hj, hc⟩ := not_judging_completed hR.toRaceInvCore hv0 hf0
        have h2 := statusRank_le_two hj hc
        have h3 : statusRank "judging" = 3 := rfl
        omega
    · intro v hv
      have hstc := (hR.verdict_completed (by rw [hv]; rfl)).1
      rcases hstat with hx | ⟨-, hv0, -⟩
      · exact ⟨by rw [hverd]; exact hv, hstc, by rw [hx]; exact hstc⟩
      · rw [hv0] at hv; cases hv
  · rw [heq] at hr'; cases hr'
    obtain ⟨hstat, hverd, -⟩ := mark_human_started_race_status race now
    constructor
    · rcases hstat with hx | ⟨hready, hx⟩
      · rw [hx]
      · rw [hx, hready]; decide
    · intro v hv
      have hstc := (hR.verdict_completed (by rw [hv]; rfl)).1
      rcases hstat with hx | ⟨hready, hx⟩
      · exact ⟨by rw [hverd]; exact hv, hstc, by rw [hx]; exact hstc⟩
      · rw [hstc] at hready; exact absurd hready (by decide)
  · rw [heq] at hr'; cases hr'
    constructor
    · have hc : (run_judgement_result race res).status = "completed" := by
        cases res <;> rfl
      rw [hc]
      have h4 := statusRank_le_four race.status
      have h5 : statusRank "completed" = 4 := rfl
      omega
    · intro v hv
      have hff := (hR.verdict_completed (by rw [hv]; rfl)).2
      rw [hff] at hfin; cases hfin
  · rw [hnone] at hr'; cases hr'

/-- Claim C10: re-submitting after the human already completed overwrites
only the stored submission text (and, for `text_entry` tasks, the human
result); the human status, timestamps, duration, race status, verdict and
`finalizing` guard are unchanged, and no second judgement is triggered. -/
theorem repeat_submission_overwrites_text_only
    (g : GlobalState) (rid : String) (race : RaceState) (sub : Option String) (t1 t2 : ℚ)
    (hreach : ReachableG g) (ht1 : 0 < t1) (ht2 : 0 < t2)
    (hr : g.RACE_STATES rid = some race)
    (hcomp : race.human.status = "completed") :
    ∃ race', (stepOp g (Op.humanSubmit rid sub t1 t2)).RACE_STATES rid = some race' ∧
      race'.human_submission = some (pyOrS sub) ∧
      (race.task.task_type = "text_entry" → race'.human.result = some (pyOrS sub)) ∧
      (race.task.task_type ≠ "text_entry" → race'.human.result = race.human.result) ∧
      race'.human.status = race.human.status ∧
      race'.human.started_at = race.human.started_at ∧
      race'.human.completed_at = race.human.completed_at ∧
      race'.human.duration_seconds = race.human.duration_seconds ∧
      race'.status = race.status ∧
      race'.verdict = race.verdict ∧
      race'.finalizing = race.finalizing := by
  have hInv := GInv_reachable hreach
  have hR := hInv.races rid race hr
  have hstep : (stepOp g (Op.humanSubmit rid sub t1 t2)).RACE_STATES rid =
      some (record_human_submission_race race sub t1 t2) := by
    have heq : stepOp g (Op.humanSubmit rid sub t1 t2) =
        { RACE_STATES := dictSet g.RACE_STATES rid
            (record_human_submission_race race sub t1 t2)
          RUN_TO_RACE := g.RUN_TO_RACE } := by
      simp [stepOp, record_human_submission, hr]
    rw [heq]
    show dictSet g.RACE_STATES rid _ rid = _
    rw [dictSet_eq]
  have hpend : ¬race.human.status = "pending" := by rw [hcomp]; decide
  have hhready : human_ready race = true := by
    unfold human_ready
    by_cases htt : (race.task.task_type == "text_entry") = true
    · rw [if_pos htt]
      have hsome := hR.human_submitted hcomp
      cases hx : race.human_submission
      · exact absurd hx hsome
      · rfl
    · rw [if_neg htt]
      rw [hcomp]; decide
  obtain ⟨c, hc⟩ := Option.ne_none_iff_exists'.mp (hR.human_status_completed.mpr hcomp)
  have hcpos : 0 < c := hR.ts_hc c hc
  have hcomp' : some (pyOrF race.human.completed_at t2) = race.human.completed_at := by
    rw [hc, pyOrF_of_pos hcpos]
  have hdur :
      (if truthyF race.human.started_at = true ∧ race.human.duration_seconds = none then
        some (ratSub (pyOrF race.human.completed_at t2) (race.human.started_at.getD 0))
      else race.human.duration_seconds) = race.human.duration_seconds := by
    cases hs : race.human.started_at with
    | none => simp [truthyF]
    | some a =>
        have hapos : 0 < a := hR.ts_hs a hs
        cases hd : race.human.duration_seconds with
        | none =>
            have := hR.dur_human.1 a c hs hc
            rw [hd] at this; cases this
        | some d => simp
  by_cases htt : race.task.task_type = "text_entry"
  · have hrec : record_human_submission_race race sub t1 t2 = maybe_finalize
        { race with
          human_submission := some (pyOrS sub)
          human := { race.human with
            status := "completed"
            completed_at := some (pyOrF race.human.completed_at t2)
            duration_seconds :=
              if truthyF race.human.started_at = true ∧
                  race.human.duration_seconds = none then
                some (ratSub (pyOrF race.human.completed_at t2)
                  (race.human.started_at.getD 0))
              else race.human.duration_seconds
            result := some (pyOrS sub) } } := by
      simp only [record_human_submission_race]
      rw [if_neg hpend]
      rw [if_pos htt]
    have hmf : record_human_submission_race race sub t1 t2 =
        { race with
          human_submission := some (pyOrS sub)
          human := { race.human with
            status := "completed"
            completed_at := some (pyOrF race.human.completed_at t2)
            duration_seconds :=
              if truthyF race.human.started_at = true ∧
                  race.human.duration_seconds = none then
                some (ratSub (pyOrF race.human.completed_at t2)
                  (race.human.started_at.getD 0))
              else race.human.duration_seconds
            result := some (pyOrS sub) } } := by
      rw [hrec]
      rcases maybe_finalize_cases _ with ⟨heq, _⟩ | ⟨heq, _, _⟩ | ⟨heq, hv, hf, haR, hhR⟩
      · exact heq
      · exact heq
      · exfalso
        have haR' : agent_ready race = true := haR
        have hv' : race.verdict.isSome = false := hv
        have hf' : race.finalizing = false := hf
        rcases hR.ready_triggered haR' hhready with hx | hx
        · rw [hf'] at hx; cases hx
        · rw [hv'] at hx; cases hx
    rw [hmf] at hstep
    refine ⟨_, hstep, ?_, ?_, ?_, ?_, ?_, ?_, ?_, ?_, ?_, ?_⟩
    · rfl
    · intro _; rfl
    · intro hne; exact absurd htt hne
    · show "completed" = race.human.status
      exact hcomp.symm
    · rfl
    · exact hcomp'
    · exact hdur
    · rfl
    · rfl
    · rfl
  · have hrec : record_human_submission_race race sub t1 t2 = maybe_finalize
        { race with
          human_submission := some (pyOrS sub)
          human := { race.human with
            status := "completed"
            completed_at := some (pyOrF race.human.completed_at t2)
            duration_seconds :=
              if truthyF race.human.started_at = true ∧
                  race.human.duration_seconds = none then
                some (ratSub (pyOrF race.human.completed_at t2)
                  (race.human.started_at.getD 0))
              else race.human.duration_seconds } } := by
      simp only [record_human_submission_race]
      rw [if_neg hpend]
      rw [if_neg htt]
    have hmf : record_human_submission_race race sub t1 t2 =
        { race with
          human_submission := some (pyOrS sub)
          human := { race.human with
            status := "completed"
            completed_at := some (pyOrF race.human.completed_at t2)
            duration_seconds :=
              if truthyF race.human.started_at = true ∧
                  race.human.duration_seconds = none then
                some (ratSub (pyOrF race.human.completed_at t2)
                  (race.human.started_at.getD 0))
              else race.human.duration_seconds } } := by
      rw [hrec]
      rcases maybe_finalize_cases _ with ⟨heq, _⟩ | ⟨heq, _, _⟩ | ⟨heq, hv, hf, haR, hhR⟩
      · exact heq
      · exact heq
      · exfalso
        have haR' : agent_ready race = true := haR
        have hv' : race.verdict.isSome = false := hv
        have hf' : race.finalizing = false := hf
        rcases hR.ready_triggered haR' hhready with hx | hx
        · rw [hf'] at hx; cases hx
        · rw [hv'] at hx; cases hx
    rw [hmf] at hstep
    refine ⟨_, hstep, ?_, ?_, ?_, ?_, ?_, ?_, ?_, ?_, ?_, ?_⟩
    · rfl
    · intro hx; exact absurd hx htt
    · intro _; rfl
    · show "completed" = race.human.status
      exact hcomp.symm
    · rfl
    · exact hcomp'
    · exact hdur
    · rfl
    · rfl
    · rfl

/-! ## Claims C3 (amended) and C4 -/

theorem durRel_iff {p : ParticipantState} (h : durRel p) :
    p.duration_seconds ≠ none ↔ (p.started_at ≠ none ∧ p.completed_at ≠ none) := by
  constructor
  · intro hd
    constructor
    · intro hs; exact hd (h.2 (Or.inl hs))
    · intro hc; exact hd (h.2 (Or.inr hc))
  · rintro ⟨hs, hc⟩
    obtain ⟨a, ha⟩ := Option.ne_none_iff_exists'.mp hs
    obtain ⟨b, hb⟩ := Option.ne_none_iff_exists'.mp hc
    rw [h.1 a b ha hb]; simp

theorem apply_run_event_agent_completed {race : RaceState} (h : RaceInvCore race)
    (e : Event) (now : ℚ) :
    ∀ c, race.agent.completed_at = some c →
      (apply_run_event race e now).agent.completed_at = some c := by
  intro c hc
  have hcpos := h.ts_ac c hc
  cases e with
  | status s =>
      cases s with
      | none => exact hc
      | some st =>
          by_cases hst : st = ""
          · simp only [apply_run_event, if_pos hst]; exact hc
          · simp only [apply_run_event, if_neg hst]; exact hc
  | liveUrl u =>
      cases u with
      | none => exact hc
      | some url =>
          by_cases hu : url = ""
          · simp only [apply_run_event, if_pos hu]; exact hc
          · simp only [apply_run_event, if_neg hu]; exact hc
  | result r =>
      cases r with
      | none => exact hc
      | some res =>
          show some (pyOrF race.agent.completed_at now) = some c
          rw [hc, pyOrF_of_pos hcpos]
  | error => exact hc
  | complete =>
      show some (pyOrF race.agent.completed_at now) = some c
      rw [hc, pyOrF_of_pos hcpos]
  | other => exact hc

theorem record_human_submission_race_agent (race : RaceState)
    (sub : Option String) (t1 t2 : ℚ) :
    (record_human_submission_race race sub t1 t2).agent = race.agent := by
  show (maybe_finalize _).agent = race.agent
  rw [(maybe_finalize_frame _).1]
  by_cases hp : race.human.status = "pending" <;>
    by_cases htt : race.task.task_type = "text_entry" <;>
    simp [record_human_submission_race, hp, htt]

theorem record_human_submission_race_human_completed {race : RaceState}
    (h : RaceInvCore race) (sub : Option String) (t1 : ℚ) {t2 : ℚ} (ht2 : 0 < t2) :
    ∀ c, race.human.completed_at = some c →
      (record_human_submission_race race sub t1 t2).human.completed_at = some c := by
  intro c hc
  have hcpos := h.ts_hc c hc
  show (maybe_finalize _).human.completed_at = some c
  rw [(maybe_finalize_frame _).2.1]
  by_cases hp : race.human.status = "pending" <;>
    by_cases htt : race.task.task_type = "text_entry" <;>
    simp [record_human_submission_race, hp, htt, hc, pyOrF_of_pos hcpos]

theorem mark_human_started_race_participants (race : RaceState) (now : ℚ) :
    (mark_human_started_race race now).agent = race.agent ∧
    (mark_human_started_race race now).human.completed_at = race.human.completed_at := by
  unfold mark_human_started_race
  by_cases h1 : race.human.status = "completed"
  · simp [h1]
  · by_cases h2 : race.human.status = "pending"
    · by_cases h3 : race.status = "ready" <;> simp [h1, h2, h3]
    · simp [h1, h2]

/-- Claim C4: in every reachable state, each participant's duration is
non-null iff both its timestamps are non-null, and then equals their
difference; and no further operation overwrites a populated completed-at
timestamp. -/
theorem duration_iff_timestamps_completed_stable
    (g : GlobalState) (rid : String) (race : RaceState)
    (hreach : ReachableG g) (hr : g.RACE_STATES rid = some race) :
    ((race.agent.duration_seconds ≠ none ↔
        (race.agent.started_at ≠ none ∧ race.agent.completed_at ≠ none)) ∧
      (∀ a b, race.agent.started_at = some a → race.agent.completed_at = some b →
        race.agent.duration_seconds = some (ratSub b a)) ∧
      (race.human.duration_seconds ≠ none ↔
        (race.human.started_at ≠ none ∧ race.human.completed_at ≠ none)) ∧
      (∀ a b, race.human.started_at = some a → race.human.completed_at = some b →
        race.human.duration_seconds = some (ratSub b a))) ∧
    (∀ op race', opWF op → (stepOp g op).RACE_STATES rid = some race' →
      (∀ c, race.agent.completed_at = some c → race'.agent.completed_at = some c) ∧
      (∀ c, race.human.completed_at = some c → race'.human.completed_at = some c)) := by
  have hInv := GInv_reachable hreach
  have hR := hInv.races rid race hr
  constructor
  · exact ⟨durRel_iff hR.dur_agent, hR.dur_agent.1, durRel_iff hR.dur_human, hR.dur_human.1⟩
  · intro op race' hwf hr'
    rcases stepOp_race_cases g op rid race hInv hwf hr with
      hsame | ⟨run_id, now, hnow, hrun, heq⟩ | ⟨e, now, hnow, ⟨run_id, hb⟩, heq⟩ |
      ⟨sub, t1, t2, ht1, ht2, heq⟩ | ⟨now, hnow, heq⟩ | ⟨res, hfin, heq⟩ | ⟨hnone, -⟩
    · rw [hsame] at hr'; cases hr'
      exact ⟨fun c hc => hc, fun c hc => hc⟩
    · rw [heq] at hr'; cases hr'
      exact ⟨fun c hc => hc, fun c hc => hc⟩
    · rw [heq] at hr'; cases hr'
      constructor
      · intro c hc
        have h1 : (maybe_finalize (apply_run_event race e now)).agent =
            (apply_run_event race e now).agent := (maybe_finalize_frame _).1
        rw [h1]
        exact apply_run_event_agent_completed hR.toRaceInvCore e now c hc
      · intro c hc
        have h1 : (maybe_finalize (apply_run_event race e now)).human =
            (apply_run_event race e now).human := (maybe_finalize_frame _).2.1
        rw [h1, (apply_run_event_frame race e now).2.1]
        exact hc
    · rw [heq] at hr'; cases hr'
      constructor
      · intro c hc
        rw [record_human_submission_race_agent]
        exact hc
      · exact record_human_submission_race_human_completed hR.toRaceInvCore sub t1 ht2
    · rw [heq] at hr'; cases hr'
      constructor
      · intro c hc
        rw [(mark_human_started_race_participants race now).1]
        exact hc
      · intro c hc
        rw [(mark_human_started_race_participants race now).2]
        exact hc
    · rw [heq] at hr'; cases hr'
      cases res <;> exact ⟨fun c hc => hc, fun c hc => hc⟩
    · rw [hnone] at hr'; cases hr'

/-- Claim C3 (amended): for a race whose agent errored, a routed `complete`
event sets the agent status to `completed` (the source overwrites `error`
unconditionally), sets the completed timestamp if unset, computes the
duration if unset, advances the race to `awaiting_human` exactly when the
race is not already `judging`/`completed` and the human has not completed
(leaving the race status unchanged otherwise), and detaches the run
binding. -/
theorem complete_event_effects
    (g : GlobalState) (run_id race_id : String) (race : RaceState) (t : ℚ)
    (hreach : ReachableG g) (ht : 0 < t)
    (hroute : g.RUN_TO_RACE run_id = some race_id) (hne : race_id ≠ "")
    (hrc : g.RACE_STATES race_id = some race)
    (herr : race.agent.status = "error") :
    ∃ race',
      (stepOp g (Op.runEvent run_id Event.complete t)).RACE_STATES race_id = some race' ∧
      race'.agent.status = "completed" ∧
      (race.agent.completed_at = none → race'.agent.completed_at = some t) ∧
      (∀ c, race.agent.completed_at = some c → race'.agent.completed_at = some c) ∧
      (∀ a, race.agent.started_at = some a → race.agent.duration_seconds = none →
        race'.agent.duration_seconds = some (ratSub (pyOrF race.agent.completed_at t) a)) ∧
      (∀ d, race.agent.duration_seconds = some d → race'.agent.duration_seconds = some d) ∧
      ((race.status = "judging" ∨ race.status = "completed") → race'.status = race.status) ∧
      (race.status ≠ "judging" → race.status ≠ "completed" → race.human.status ≠ "completed" →
        (apply_run_event race Event.complete t).status = "awaiting_human") ∧
      (race.status ≠ "judging" → race.status ≠ "completed" → race.human.status = "completed" →
        (apply_run_event race Event.complete t).status = race.status) ∧
      (stepOp g (Op.runEvent run_id Event.complete t)).RUN_TO_RACE run_id = none := by
  have hInv := GInv_reachable hreach
  have hR := hInv.races race_id race hrc
  have hstep : stepOp g (Op.runEvent run_id Event.complete t) =
      { RACE_STATES := dictSet g.RACE_STATES race_id
          (maybe_finalize (apply_run_event race Event.complete t))
        RUN_TO_RACE := dictRemove g.RUN_TO_RACE run_id } := by
    simp [stepOp, handle_run_event, hroute, hne, hrc]
  have hagent : (maybe_finalize (apply_run_event race Event.complete t)).agent =
      (apply_run_event race Event.complete t).agent := (maybe_finalize_frame _).1
  refine ⟨maybe_finalize (apply_run_event race Event.complete t), ?_, ?_, ?_, ?_, ?_, ?_,
    ?_, ?_, ?_, ?_⟩
  · rw [hstep]
    show dictSet g.RACE_STATES race_id _ race_id = _
    rw [dictSet_eq]
  · rw [hagent]; rfl
  · intro hcn
    rw [hagent]
    show some (pyOrF race.agent.completed_at t) = some t
    rw [hcn]
    rfl
  · intro c hc
    rw [hagent]
    exact apply_run_event_agent_completed hR.toRaceInvCore Event.complete t c hc
  · intro a hs hd
    rw [hagent]
    have hapos : 0 < a := hR.ts_as a hs
    show (if truthyF race.agent.started_at = true ∧ race.agent.duration_seconds = none then
        some (ratSub (pyOrF race.agent.completed_at t) (race.agent.started_at.getD 0))
      else race.agent.duration_seconds) = _
    rw [hs, hd, truthyF_of_pos hapos]
    simp
  · intro d hd
    rw [hagent]
    show (if truthyF race.agent.started_at = true ∧ race.agent.duration_seconds = none then
        some (ratSub (pyOrF race.agent.completed_at t) (race.agent.started_at.getD 0))
      else race.agent.duration_seconds) = _
    rw [hd]
    have hcond : ¬(truthyF race.agent.started_at = true ∧ (some d : Option ℚ) = none) := by
      rintro ⟨-, hx⟩; cases hx
    rw [if_neg hcond]
  · intro hjc
    have h1 : (apply_run_event race Event.complete t).status = race.status := by
      have hg : ¬(race.status ≠ "judging" ∧ race.status ≠ "completed") := by
        rcases hjc with hx | hx <;> simp [hx]
      simp [apply_run_event, hg]
    have h2 : maybe_finalize (apply_run_event race Event.complete t) =
        apply_run_event race Event.complete t := by
      apply maybe_finalize_of_triggered
      have hv : (apply_run_event race Event.complete t).verdict = race.verdict :=
        (apply_run_event_frame race Event.complete t).2.2.2.1
      have hf : (apply_run_event race Event.complete t).finalizing = race.finalizing :=
        (apply_run_event_frame race Event.complete t).2.2.2.2.1
      rcases hR.judging_triggered hjc with hx | hx
      · right; rw [hf]; exact hx
      · left; rw [hv]; exact hx
    rw [h2, h1]
  · intro h1 h2 h3
    simp [apply_run_event, h1, h2, h3]
  · intro h1 h2 h3
    simp [apply_run_event, h1, h2, h3]
  · rw [hstep]
    show dictRemove g.RUN_TO_RACE run_id run_id = none
    unfold dictRemove
    simp

/-! ## Claim C1: the judgement fires at most once per race -/

/-- A race's judgement has been triggered: the guard flag is up or the
verdict is already stored. -/
def triggered (g : GlobalState) (rid : String) : Bool :=
  match g.RACE_STATES rid with
  | some race => race.finalizing || race.verdict.isSome
  | none => false

/-- The stored verdict of a race (none if the race is unknown). -/
def verdictOf (g : GlobalState) (rid : String) : Option Verdict :=
  match g.RACE_STATES rid with
  | some race => race.verdict
  | none => none

/-- Number of steps of a trace at which the judgement of `rid` is
triggered (the guard goes from clear to set). -/
def triggerCount (rid : String) : GlobalState → List Op → ℕ
  | _, [] => 0
  | g, op :: ops =>
      (if triggered g rid = false ∧ triggered (stepOp g op) rid = true then 1 else 0) +
        triggerCount rid (stepOp g op) ops

/-- Number of steps of a trace at which the stored verdict of `rid`
changes. -/
def verdictWrites (rid : String) : GlobalState → List Op → ℕ
  | _, [] => 0
  | g, op :: ops =>
      (if verdictOf (stepOp g op) rid ≠ verdictOf g rid then 1 else 0) +
        verdictWrites rid (stepOp g op) ops

theorem record_pre_flags (race : RaceState) (sub : Option String) (t1 t2 : ℚ) :
    ∃ r3 : RaceState, record_human_submission_race race sub t1 t2 = maybe_finalize r3 ∧
      r3.verdict = race.verdict ∧ r3.finalizing = race.finalizing := by
  refine ⟨_, rfl, ?_, ?_⟩ <;>
    by_cases hp : race.human.status = "pending" <;>
    by_cases htt : race.task.task_type = "text_entry" <;>
    simp [record_human_submission_race, hp, htt]

theorem triggered_mono {g : GlobalState} (hInv : GInv g) {op : Op} (hwf : opWF op)
    {rid : String} (hnc : op ≠ Op.clearRace rid)
    (ht : triggered g rid = true) : triggered (stepOp g op) rid = true := by
  unfold triggered at ht
  cases hx : g.RACE_STATES rid with
  | none => rw [hx] at ht; cases ht
  | some race =>
      rw [hx] at ht
      have ht' : (race.finalizing || race.verdict.isSome) = true := ht
      rcases stepOp_race_cases g op rid race hInv hwf hx with
        hsame | ⟨run_id, now, hnow, hrun, heq⟩ | ⟨e, now, hnow, ⟨run_id, hb⟩, heq⟩ |
        ⟨sub, t1, t2, ht1, ht2, heq⟩ | ⟨now, hnow, heq⟩ | ⟨res, hfin, heq⟩ | ⟨hnone, hop⟩
      · unfold triggered; rw [hsame]; exact ht
      · unfold triggered; rw [heq]
        show ((register_agent_run_race race run_id now).finalizing ||
          (register_agent_run_race race run_id now).verdict.isSome) = true
        obtain ⟨hv, -, -, -, hf⟩ := register_agent_run_race_frame race run_id now
        rw [hv, hf]; exact ht'
      · unfold triggered; rw [heq]
        have hv1 : (apply_run_event race e now).verdict = race.verdict :=
          (apply_run_event_frame race e now).2.2.2.1
        have hf1 : (apply_run_event race e now).finalizing = race.finalizing :=
          (apply_run_event_frame race e now).2.2.2.2.1
        have htr : maybe_finalize (apply_run_event race e now) =
            apply_run_event race e now := by
          apply maybe_finalize_of_triggered
          rcases Bool.or_eq_true_iff.mp ht' with hy | hy
          · right; rw [hf1]; exact hy
          · left; rw [hv1, hy]
        rw [htr]
        show ((apply_run_event race e now).finalizing ||
          (apply_run_event race e now).verdict.isSome) = true
        rw [hv1, hf1]; exact ht'
      · unfold triggered; rw [heq]
        obtain ⟨r3, hr3, hv3, hf3⟩ := record_pre_flags race sub t1 t2
        have htr : maybe_finalize r3 = r3 := by
          apply maybe_finalize_of_triggered
          rcases Bool.or_eq_true_iff.mp ht' with hy | hy
          · right; rw [hf3]; exact hy
          · left; rw [hv3, hy]
        rw [hr3, htr]
        show (r3.finalizing || r3.verdict.isSome) = true
        rw [hv3, hf3]; exact ht'
      · unfold triggered; rw [heq]
        obtain ⟨-, hv, hf⟩ := mark_human_started_race_status race now
        show ((mark_human_started_race race now).finalizing ||
          (mark_human_started_race race now).verdict.isSome) = true
        rw [hv, hf]; exact ht'
      · unfold triggered; rw [heq]
        show ((run_judgement_result race res).finalizing ||
          (run_judgement_result race res).verdict.isSome) = true
        have hs : (run_judgement_result race res).verdict.isSome = true := by
          cases res <;> rfl
        rw [hs]; simp
      · exact absurd hop hnc

theorem verdictOf_mono {g : GlobalState} (hInv : GInv g) {op : Op} (hwf : opWF op)
    {rid : String} (hnc : op ≠ Op.clearRace rid) {v : Verdict}
    (hv : verdictOf g rid = some v) : verdictOf (stepOp g op) rid = some v := by
  unfold verdictOf at hv
  cases hx : g.RACE_STATES rid with
  | none => rw [hx] at hv; cases hv
  | some race =>
      rw [hx] at hv
      have hv' : race.verdict = some v := hv
      have hR := hInv.races rid race hx
      have hvc := hR.verdict_completed (by rw [hv']; rfl)
      rcases stepOp_race_cases g op rid race hInv hwf hx with
        hsame | ⟨run_id, now, hnow, hrun, heq⟩ | ⟨e, now, hnow, ⟨run_id, hb⟩, heq⟩ |
        ⟨sub, t1, t2, ht1, ht2, heq⟩ | ⟨now, hnow, heq⟩ | ⟨res, hfin, heq⟩ | ⟨hnone, hop⟩
      · unfold verdictOf; rw [hsame]; exact hv
      · unfold verdictOf; rw [heq]
        show (register_agent_run_race race run_id now).verdict = some v
        rw [(register_agent_run_race_frame race run_id now).1]; exact hv'
      · unfold verdictOf; rw [heq]
        have hv1 := (apply_run_event_frame race e now).2.2.2.1
        have htr : maybe_finalize (apply_run_event race e now) =
            apply_run_event race e now :=
          maybe_finalize_of_triggered (Or.inl (by rw [hv1, hv']; rfl))
        rw [htr]
        show (apply_run_event race e now).verdict = some v
        rw [hv1]; exact hv'
      · unfold verdictOf; rw [heq]
        obtain ⟨r3, hr3, hv3, hf3⟩ := record_pre_flags race sub t1 t2
        have htr : maybe_finalize r3 = r3 :=
          maybe_finalize_of_triggered (Or.inl (by rw [hv3, hv']; rfl))
        rw [hr3, htr]
        show r3.verdict = some v
        rw [hv3]; exact hv'
      · unfold verdictOf; rw [heq]
        show (mark_human_started_race race now).verdict = some v
        rw [(mark_human_started_race_status race now).2.1]; exact hv'
      · rw [hvc.2] at hfin; exact Bool.noConfusion hfin
      · exact absurd hop hnc

theorem triggerCount_bound (rid : String) (ops : List Op) :
    ∀ g : GlobalState, GInv g → (∀ op ∈ ops, opWF op) →
    (∀ op ∈ ops, op ≠ Op.clearRace rid) →
    triggerCount rid g ops ≤ 1 ∧
      (triggered g rid = true → triggerCount rid g ops = 0) := by
  induction ops with
  | nil => intro g _ _ _; exact ⟨Nat.zero_le 1, fun _ => rfl⟩
  | cons op ops ih =>
      intro g hG hwf hnc
      have hwfo : opWF op := hwf op (by simp)
      have hnco : op ≠ Op.clearRace rid := hnc op (by simp)
      have hG' : GInv (stepOp g op) := GInv_step hG hwfo
      have ih' := ih (stepOp g op) hG' (fun o ho => hwf o (by simp [ho]))
        (fun o ho => hnc o (by simp [ho]))
      have hc : triggerCount rid g (op :: ops) =
          (if triggered g rid = false ∧ triggered (stepOp g op) rid = true
            then 1 else 0) + triggerCount rid (stepOp g op) ops := rfl
      constructor
      · rw [hc]
        by_cases h1 : triggered g rid = false ∧ triggered (stepOp g op) rid = true
        · rw [if_pos h1, ih'.2 h1.2]
        · rw [if_neg h1]
          simpa using ih'.1
      · intro ht
        rw [hc]
        have ht' : triggered (stepOp g op) rid = true := triggered_mono hG hwfo hnco ht
        rw [if_neg (by intro h; rw [ht] at h; exact Bool.noConfusion h.1), ih'.2 ht']

theorem triggerCount_pos (rid : String) (ops : List Op) :
    ∀ g : GlobalState, triggered g rid = false →
    triggered (ops.foldl stepOp g) rid = true → 1 ≤ triggerCount rid g ops := by
  induction ops with
  | nil =>
      intro g hf ht
      rw [List.foldl_nil, hf] at ht
      exact Bool.noConfusion ht
  | cons op ops ih =>
      intro g hf ht
      rw [List.foldl_cons] at ht
      have hc : triggerCount rid g (op :: ops) =
          (if triggered g rid = false ∧ triggered (stepOp g op) rid = true
            then 1 else 0) + triggerCount rid (stepOp g op) ops := rfl
      rw [hc]
      by_cases h1 : triggered (stepOp g op) rid = true
      · rw [if_pos ⟨hf, h1⟩]
        exact Nat.le_add_right 1 _
      · have hf' : triggered (stepOp g op) rid = false := by
          revert h1; cases triggered (stepOp g op) rid <;> simp
        rw [if_neg (fun h => h1 h.2)]
        simpa using ih (stepOp g op) hf' ht

theorem verdictWrites_bound (rid : String) (ops : List Op) :
    ∀ g : GlobalState, GInv g → (∀ op ∈ ops, opWF op) →
    (∀ op ∈ ops, op ≠ Op.clearRace rid) →
    verdictWrites rid g ops ≤ 1 ∧
      (∀ v, verdictOf g rid = some v → verdictWrites rid g ops = 0) := by
  induction ops with
  | nil => intro g _ _ _; exact ⟨Nat.zero_le 1, fun _ _ => rfl⟩
  | cons op ops ih =>
      intro g hG hwf hnc
      have hwfo : opWF op := hwf op (by simp)
      have hnco : op ≠ Op.clearRace rid := hnc op (by simp)
      have hG' : GInv (stepOp g op) := GInv_step hG hwfo
      have ih' := ih (stepOp g op) hG' (fun o ho => hwf o (by simp [ho]))
        (fun o ho => hnc o (by simp [ho]))
      have hc : verdictWrites rid g (op :: ops) =
          (if verdictOf (stepOp g op) rid ≠ verdictOf g rid then 1 else 0) +
            verdictWrites rid (stepOp g op) ops := rfl
      constructor
      · rw [hc]
        cases hv : verdictOf g rid with
        | some v =>
            have hv' := verdictOf_mono hG hwfo hnco hv
            rw [if_neg (by intro h; exact h hv'), ih'.2 v hv']
            simp
        | none =>
            cases hv2 : verdictOf (stepOp g op) rid with
            | none =>
                rw [if_neg (by simp)]
                simpa using ih'.1
            | some w =>
                rw [ih'.2 w hv2]
                split <;> simp
      · intro v hv
        rw [hc]
        have hv' := verdictOf_mono hG hwfo hnco hv
        rw [if_neg (by intro h; exact h (hv'.trans hv.symm)), ih'.2 v hv']

/-- **C1.** For every race and every well-formed trace of operations that
never clears the race, the `maybe_finalize` guard (return if the verdict is
set or `finalizing` is already true, otherwise set `finalizing`) ensures the
judgement is triggered at most once and a verdict is stored at most once;
moreover if the guard is set (or a verdict stored) at the end of the trace,
the judgement was triggered exactly once along it. -/
theorem judgement_triggered_once_verdict_stored_once
    (rid : String) (ops : List Op)
    (hwf : ∀ op ∈ ops, opWF op)
    (hnc : ∀ op ∈ ops, op ≠ Op.clearRace rid) :
    triggerCount rid initState ops ≤ 1 ∧
    verdictWrites rid initState ops ≤ 1 ∧
    (triggered (execList ops) rid = true →
      triggerCount rid initState ops = 1) := by
  have hA := triggerCount_bound rid ops initState GInv_initState hwf hnc
  have hD := verdictWrites_bound rid ops initState GInv_initState hwf hnc
  refine ⟨hA.1, hD.1, fun ht => ?_⟩
  have hf0 : triggered initState rid = false := rfl
  have hge : 1 ≤ triggerCount rid initState ops :=
    triggerCount_pos rid ops initState hf0 ht
  omega

theorem judgement_triggered_once_verdict_stored_once_witness :
    (∀ op ∈ trHappy, opWF op) ∧ (∀ op ∈ trHappy, op ≠ Op.clearRace "r") ∧
    (triggerCount "r" initState trHappy ≤ 1 ∧
      verdictWrites "r" initState trHappy ≤ 1 ∧
      (triggered (execList trHappy) "r" = true →
        triggerCount "r" initState trHappy = 1)) :=
  ⟨by decide, by decide,
    judgement_triggered_once_verdict_stored_once "r" trHappy (by decide) (by decide)⟩

/-- The race state reached by `trFinalizing`: judging, guard set, both
participants completed. -/
def raceJudging : RaceState :=
  { race_id := "r", task := exTask, created_at := 1, status := "judging"
    agent_run_id := some "run1"
    agent := { status := "completed", started_at := some 2, completed_at := some 4,
               duration_seconds := some 2, result := some "Paris" }
    human := { status := "completed", started_at := some 6, completed_at := some 7,
               duration_seconds := some 1, result := some "Paris" }
    human_submission := some "Paris", verdict := none, finalizing := true }

/-- `raceJudging` after the judgement result lands. -/
def raceDone : RaceState :=
  { raceJudging with status := "completed", verdict := some exVerdict, finalizing := false }

/-- The race state reached by `trErrorOnly`: agent errored, run still bound. -/
def raceErrored : RaceState :=
  { race_id := "r", task := exTask, created_at := 1, status := "running"
    agent_run_id := some "run1"
    agent := { status := "error", started_at := some 2 } }

theorem race_status_monotonic_verdict_final_witness :
    opWF (Op.judgeFinish "r" (Except.ok exVerdict)) ∧
    (execList trFinalizing).RACE_STATES "r" = some raceJudging ∧
    (stepOp (execList trFinalizing)
      (Op.judgeFinish "r" (Except.ok exVerdict))).RACE_STATES "r" = some raceDone ∧
    (statusRank raceJudging.status ≤ statusRank raceDone.status ∧
      (∀ v, raceJudging.verdict = some v →
        raceDone.verdict = some v ∧ raceJudging.status = "completed" ∧
          raceDone.status = "completed")) :=
  ⟨by decide, by decide, by decide,
    race_status_monotonic_verdict_final (execList trFinalizing)
      (Op.judgeFinish "r" (Except.ok exVerdict)) "r" raceJudging raceDone
      ⟨trFinalizing, by decide, rfl⟩ (by decide) (by decide) (by decide)⟩

theorem repeat_submission_overwrites_text_only_witness :
    (0 : ℚ) < 8 ∧ (0 : ℚ) < 9 ∧
    (execList trFinalizing).RACE_STATES "r" = some raceJudging ∧
    raceJudging.human.status = "completed" ∧
    (∃ race', (stepOp (execList trFinalizing)
        (Op.humanSubmit "r" (some "Paris2") 8 9)).RACE_STATES "r" = some race' ∧
      race'.human_submission = some (pyOrS (some "Paris2")) ∧
      (raceJudging.task.task_type = "text_entry" →
        race'.human.result = some (pyOrS (some "Paris2"))) ∧
      (raceJudging.task.task_type ≠ "text_entry" →
        race'.human.result = raceJudging.human.result) ∧
      race'.human.status = raceJudging.human.status ∧
      race'.human.started_at = raceJudging.human.started_at ∧
      race'.human.completed_at = raceJudging.human.completed_at ∧
      race'.human.duration_seconds = raceJudging.human.duration_seconds ∧
      race'.status = raceJudging.status ∧
      race'.verdict = raceJudging.verdict ∧
      race'.finalizing = raceJudging.finalizing) :=
  ⟨by decide, by decide, by decide, by decide,
    repeat_submission_overwrites_text_only (execList trFinalizing) "r" raceJudging
      (some "Paris2") 8 9 ⟨trFinalizing, by decide, rfl⟩ (by decide) (by decide)
      (by decide) (by decide)⟩

theorem duration_iff_timestamps_completed_stable_witness :
    (execList trFinalizing).RACE_STATES "r" = some raceJudging ∧
    (((raceJudging.agent.duration_seconds ≠ none ↔
        (raceJudging.agent.started_at ≠ none ∧ raceJudging.agent.completed_at ≠ none)) ∧
      (∀ a b, raceJudging.agent.started_at = some a →
        raceJudging.agent.completed_at = some b →
        raceJudging.agent.duration_seconds = some (ratSub b a)) ∧
      (raceJudging.human.duration_seconds ≠ none ↔
        (raceJudging.human.started_at ≠ none ∧ raceJudging.human.completed_at ≠ none)) ∧
      (∀ a b, raceJudging.human.started_at = some a →
        raceJudging.human.completed_at = some b →
        raceJudging.human.duration_seconds = some (ratSub b a))) ∧
    (∀ op race', opWF op →
      (stepOp (execList trFinalizing) op).RACE_STATES "r" = some race' →
      (∀ c, raceJudging.agent.completed_at = some c →
        race'.agent.completed_at = some c) ∧
      (∀ c, raceJudging.human.completed_at = some c →
        race'.human.completed_at = some c))) :=
  ⟨by decide,
    duration_iff_timestamps_completed_stable (execList trFinalizing) "r" raceJudging
      ⟨trFinalizing, by decide, rfl⟩ (by decide)⟩

theorem complete_event_effects_witness :
    (0 : ℚ) < 4 ∧
    (execList trErrorOnly).RUN_TO_RACE "run1" = some "r" ∧ "r" ≠ "" ∧
    (execList trErrorOnly).RACE_STATES "r" = some raceErrored ∧
    raceErrored.agent.status = "error" ∧
    (∃ race',
      (stepOp (execList trErrorOnly)
        (Op.runEvent "run1" Event.complete 4)).RACE_STATES "r" = some race' ∧
      race'.agent.status = "completed" ∧
      (raceErrored.agent.completed_at = none → race'.agent.completed_at = some 4) ∧
      (∀ c, raceErrored.agent.completed_at = some c →
        race'.agent.completed_at = some c) ∧
      (∀ a, raceErrored.agent.started_at = some a →
        raceErrored.agent.duration_seconds = none →
        race'.agent.duration_seconds =
          some (ratSub (pyOrF raceErrored.agent.completed_at 4) a)) ∧
      (∀ d, raceErrored.agent.duration_seconds = some d →
        race'.agent.duration_seconds = some d) ∧
      ((raceErrored.status = "judging" ∨ raceErrored.status = "completed") →
        race'.status = raceErrored.status) ∧
      (raceErrored.status ≠ "judging" → raceErrored.status ≠ "completed" →
        raceErrored.human.status ≠ "completed" →
        (apply_run_event raceErrored Event.complete 4).status = "awaiting_human") ∧
      (raceErrored.status ≠ "judging" → raceErrored.status ≠ "completed" →
        raceErrored.human.status = "completed" →
        (apply_run_event raceErrored Event.complete 4).status = raceErrored.status) ∧
      (stepOp (execList trErrorOnly)
        (Op.runEvent "run1" Event.complete 4)).RUN_TO_RACE "run1" = none) :=
  ⟨by decide, by decide, by decide, by decide, by decide,
    complete_event_effects (execList trErrorOnly) "run1" "r" raceErrored 4
      ⟨trErrorOnly, by decide, rfl⟩ (by decide) (by decide) (by decide)
      (by decide) (by decide)⟩
